import Mathlib

/-!
Verification of the bufio buffer/serialization library.

This file gives a shallow embedding, in Lean 4, of the numeric
encoding/decoding core (`lib/encoding.js`), the cursor reader
(`lib/reader.js`, class `BufferReader`), the size-only writer
(`sizewriter.js`, class `SizeWriter`), the statically allocated writer
(`lib/staticwriter.js`, class `StaticWriter`) and the digest writer
(`hashwriter.js`, class `HashWriter`), and proves or refutes the frozen
claims about them.

Modelling conventions:
* A byte buffer (Node `Buffer` / `Uint8Array`) is a `List Nat` of bytes;
  a well-formed buffer has every entry `< 256`.  Reading out of bounds
  yields `0` (the code always bounds-checks before reading on the paths
  verified here); storing out of bounds is a no-op and stores reduce the
  value mod 256, matching `Uint8Array` element stores.
* JavaScript numbers on the integer paths modelled here are exact
  integers (the code keeps every intermediate inside the IEEE-754 exact
  range on these paths), so they are modelled as `Int`.  The 32-bit
  coercions performed by the JS bitwise operators (`| 0`, `>>>`, `<<`,
  `&`, `~`) are modelled explicitly by the `js*` helpers below.
* A thrown `EncodingError` is modelled as an `Except.error` carrying the
  constructor arguments.  `error.js` is not part of the sources, so the
  error value is modelled from the spec (section 7): an offset together
  with a human-readable reason.  JS call sites may pass fewer arguments
  than a function declares; a missing argument is the value `undefined`,
  so the fields hold a `JsValue` (number, string, or undefined).
-/

namespace Bufio

/-- A JavaScript value as it can show up in an `EncodingError` field:
a number, a string, or `undefined` (for an argument that was not passed). -/
inductive JsValue where
  | num (n : Int)
  | str (s : String)
  | undef
deriving DecidableEq, Repr

/-- Modelled from the spec: `error.js` (not included in the sources) defines
the single error kind `EncodingError(offset, reason)` carrying the byte
offset at which the problem was detected and a human-readable reason. -/
structure EncodingError where
  off : JsValue
  reason : JsValue
deriving DecidableEq, Repr

/-- JS `ToUint32`: the operand of `>>>` and friends, reduced mod `2^32`. -/
def jsToUint32 (n : Int) : Nat :=
  (n % 4294967296).toNat

/-- JS `ToInt32`: result range of `| 0`, `<<`, `~`: reduced mod `2^32` and
then interpreted as a signed 32-bit value. -/
def jsToInt32 (n : Int) : Int :=
  let m := n % 4294967296
  if m < 2147483648 then m else m - 4294967296

/-- JS unsigned right shift `n >>> k` (for `k < 32`). -/
def jsShrU (n : Int) (k : Nat) : Int :=
  ((jsToUint32 n >>> k : Nat) : Int)

/-- JS left shift `n << k` (for `k < 32`). -/
def jsShl (n : Int) (k : Nat) : Int :=
  jsToInt32 (n * ((2 : Int) ^ k))

/-- JS bitwise not `~n`. -/
def jsNot (n : Int) : Int :=
  jsToInt32 (-n - 1)

/-- JS bitwise and `n & mask` for a nonnegative 32-bit mask.  The result is
reported as a `Nat`; the call sites verified here either use a mask below
`2^31` (where this agrees exactly with JS) or only compare the result
against `0` (where signedness of the JS result is irrelevant). -/
def jsAndMask (n : Int) (mask : Nat) : Nat :=
  jsToUint32 n &&& mask

/-- JS bitwise or `a | b` (signed 32-bit result). -/
def jsOrI (a b : Int) : Int :=
  jsToInt32 ((jsToUint32 a ||| jsToUint32 b : Nat) : Int)

/-- Buffer element read `data[i]`; in-bounds on every verified path. -/
def getB (data : List Nat) (i : Nat) : Nat :=
  data.getD i 0

/-- Buffer element store `data[i] = v`: the value is reduced mod 256 and an
out-of-bounds store is a no-op, as for a `Uint8Array` element store. -/
def setB (data : List Nat) (i : Nat) (v : Int) : List Nat :=
  data.set i ((v % 256).toNat)

/-- The `n` bytes of `data` starting at `off` (as read back by
`data[off]`, `data[off+1]`, ...). -/
def extract (data : List Nat) (off : Nat) : Nat → List Nat
  | 0 => []
  | n + 1 => getB data off :: extract data (off + 1) n

/-- Every entry of a well-formed buffer is a byte. -/
def validBytes (data : List Nat) : Prop :=
  ∀ b ∈ data, b < 256

instance (data : List Nat) : Decidable (validBytes data) := by
  unfold validBytes; infer_instance

/-- Number.MAX_SAFE_INTEGER. -/
def MAX_SAFE_INTEGER : Int := 9007199254740991

/-- The `check(value, offset)` helper of `encoding.js`: throws an
offset-tagged out-of-bounds `EncodingError` when the condition fails. -/
def check (value : Bool) (offset : Nat) : Except EncodingError Unit :=
  if value then .ok () else .error ⟨.num offset, .str "Out of bounds read"⟩

/-- The `enforce(value, offset, reason)` helper of `encoding.js`.  The two
`JsValue` arguments are exactly what the call site passed (a call site that
passes too few arguments passes `undefined` for the rest). -/
def enforce (value : Bool) (offset : JsValue) (reason : JsValue) :
    Except EncodingError Unit :=
  if value then .ok () else .error ⟨offset, reason⟩

/-! ## Fixed-width reads, unsigned, little-endian (`encoding.js`) -/

/-- encoding.js `readU32`. -/
def readU32 (data : List Nat) (off : Nat) : Int :=
  (getB data off : Int) +
    (getB data (off + 1) : Int) * 256 +
    (getB data (off + 2) : Int) * 65536 +
    (getB data (off + 3) : Int) * 16777216

/-- encoding.js `readU24`. -/
def readU24 (data : List Nat) (off : Nat) : Int :=
  (getB data off : Int) + (getB data (off + 1) : Int) * 256 +
    (getB data (off + 2) : Int) * 65536

/-- encoding.js `readU16`. -/
def readU16 (data : List Nat) (off : Nat) : Int :=
  (getB data off : Int) + (getB data (off + 1) : Int) * 256

/-- encoding.js `readU8`. -/
def readU8 (data : List Nat) (off : Nat) : Int :=
  (getB data off : Int)

/-- encoding.js `readU64`: combines two 32-bit words, enforcing that the high
word keeps the value within `2^53 - 1`. -/
def readU64 (data : List Nat) (off : Nat) : Except EncodingError Int := do
  let hi := readU32 data (off + 4)
  let lo := readU32 data off
  enforce (jsAndMask hi 0xffe00000 = 0) (.num off) (.str "Number exceeds 2^53-1")
  pure (hi * 4294967296 + lo)

/-- encoding.js `readU56`. -/
def readU56 (data : List Nat) (off : Nat) : Except EncodingError Int := do
  let hi := readU24 data (off + 4)
  let lo := readU32 data off
  enforce (jsAndMask hi 0xffe00000 = 0) (.num off) (.str "Number exceeds 2^53-1")
  pure (hi * 4294967296 + lo)

/-- encoding.js `readU48`. -/
def readU48 (data : List Nat) (off : Nat) : Int :=
  (getB data off : Int) +
    (getB data (off + 1) : Int) * 256 +
    (getB data (off + 2) : Int) * 65536 +
    (getB data (off + 3) : Int) * 16777216 +
    ((getB data (off + 4) : Int) + (getB data (off + 5) : Int) * 256) * 4294967296

/-- encoding.js `readU40`. -/
def readU40 (data : List Nat) (off : Nat) : Int :=
  (getB data off : Int) +
    (getB data (off + 1) : Int) * 256 +
    (getB data (off + 2) : Int) * 65536 +
    (getB data (off + 3) : Int) * 16777216 +
    (getB data (off + 4) : Int) * 4294967296

/-! ## Fixed-width reads, unsigned, big-endian -/

/-- encoding.js `readU32BE`. -/
def readU32BE (data : List Nat) (off : Nat) : Int :=
  (getB data off : Int) * 16777216 +
    (getB data (off + 1) : Int) * 65536 +
    (getB data (off + 2) : Int) * 256 +
    (getB data (off + 3) : Int)

/-- encoding.js `readU24BE`. -/
def readU24BE (data : List Nat) (off : Nat) : Int :=
  (getB data off : Int) * 65536 + (getB data (off + 1) : Int) * 256 +
    (getB data (off + 2) : Int)

/-- encoding.js `readU16BE`. -/
def readU16BE (data : List Nat) (off : Nat) : Int :=
  (getB data off : Int) * 256 + (getB data (off + 1) : Int)

/-- encoding.js `readU64BE`. -/
def readU64BE (data : List Nat) (off : Nat) : Except EncodingError Int := do
  let hi := readU32BE data off
  let lo := readU32BE data (off + 4)
  enforce (jsAndMask hi 0xffe00000 = 0) (.num off) (.str "Number exceeds 2^53-1")
  pure (hi * 4294967296 + lo)

/-- encoding.js `readU56BE`. -/
def readU56BE (data : List Nat) (off : Nat) : Except EncodingError Int := do
  let hi := readU24BE data off
  let lo := readU32BE data (off + 3)
  enforce (jsAndMask hi 0xffe00000 = 0) (.num off) (.str "Number exceeds 2^53-1")
  pure (hi * 4294967296 + lo)

/-- encoding.js `readU48BE`. -/
def readU48BE (data : List Nat) (off : Nat) : Int :=
  ((getB data off : Int) * 256 + (getB data (off + 1) : Int)) * 4294967296 +
    (getB data (off + 2) : Int) * 16777216 +
    (getB data (off + 3) : Int) * 65536 +
    (getB data (off + 4) : Int) * 256 +
    (getB data (off + 5) : Int)

/-- encoding.js `readU40BE`. -/
def readU40BE (data : List Nat) (off : Nat) : Int :=
  (getB data off : Int) * 4294967296 +
    (getB data (off + 1) : Int) * 16777216 +
    (getB data (off + 2) : Int) * 65536 +
    (getB data (off + 3) : Int) * 256 +
    (getB data (off + 4) : Int)

/-! ## Fixed-width reads, signed -/

/-- encoding.js `readI8`: `val | (val & 2 ** 7) * 0x1fffffe` sign-extends. -/
def readI8 (data : List Nat) (off : Nat) : Int :=
  let val : Int := (getB data off : Int)
  jsOrI val ((jsAndMask val 128 : Nat) * 0x1fffffe)

/-- encoding.js `readI16`. -/
def readI16 (data : List Nat) (off : Nat) : Int :=
  let val : Int := (getB data off : Int) + (getB data (off + 1) : Int) * 256
  jsOrI val ((jsAndMask val 32768 : Nat) * 0x1fffe)

/-- encoding.js `readI16BE`. -/
def readI16BE (data : List Nat) (off : Nat) : Int :=
  let val : Int := (getB data off : Int) * 256 + (getB data (off + 1) : Int)
  jsOrI val ((jsAndMask val 32768 : Nat) * 0x1fffe)

/-- encoding.js `readI24`. -/
def readI24 (data : List Nat) (off : Nat) : Int :=
  let val : Int := (getB data off : Int) + (getB data (off + 1) : Int) * 256 +
    (getB data (off + 2) : Int) * 65536
  jsOrI val ((jsAndMask val 8388608 : Nat) * 0x1fe)

/-- encoding.js `readI24BE`. -/
def readI24BE (data : List Nat) (off : Nat) : Int :=
  let val : Int := (getB data off : Int) * 65536 +
    (getB data (off + 1) : Int) * 256 + (getB data (off + 2) : Int)
  jsOrI val ((jsAndMask val 8388608 : Nat) * 0x1fe)

/-- encoding.js `readI32`: the top byte overflows into the sign via `<< 24`. -/
def readI32 (data : List Nat) (off : Nat) : Int :=
  (getB data off : Int) +
    (getB data (off + 1) : Int) * 256 +
    (getB data (off + 2) : Int) * 65536 +
    jsShl (getB data (off + 3) : Int) 24

/-- encoding.js `readI32BE`. -/
def readI32BE (data : List Nat) (off : Nat) : Int :=
  jsShl (getB data off : Int) 24 +
    (getB data (off + 1) : Int) * 65536 +
    (getB data (off + 2) : Int) * 256 +
    (getB data (off + 3) : Int)

/-- encoding.js `readI48`: sign-extends the top 16-bit word. -/
def readI48 (data : List Nat) (off : Nat) : Int :=
  let val : Int := (getB data (off + 4) : Int) + (getB data (off + 5) : Int) * 256
  jsOrI val ((jsAndMask val 32768 : Nat) * 0x1fffe) * 4294967296 +
    (getB data off : Int) +
    (getB data (off + 1) : Int) * 256 +
    (getB data (off + 2) : Int) * 65536 +
    (getB data (off + 3) : Int) * 16777216

/-- encoding.js `readI40`. -/
def readI40 (data : List Nat) (off : Nat) : Int :=
  let last : Int := (getB data (off + 4) : Int)
  jsOrI last ((jsAndMask last 128 : Nat) * 0x1fffffe) * 4294967296 +
    (getB data off : Int) +
    (getB data (off + 1) : Int) * 256 +
    (getB data (off + 2) : Int) * 65536 +
    (getB data (off + 3) : Int) * 16777216

/-- encoding.js `readI48BE`. -/
def readI48BE (data : List Nat) (off : Nat) : Int :=
  let val : Int := (getB data (off + 1) : Int) + (getB data off : Int) * 256
  jsOrI val ((jsAndMask val 32768 : Nat) * 0x1fffe) * 4294967296 +
    (getB data (off + 2) : Int) * 16777216 +
    (getB data (off + 3) : Int) * 65536 +
    (getB data (off + 4) : Int) * 256 +
    (getB data (off + 5) : Int)

/-- encoding.js `readI40BE`. -/
def readI40BE (data : List Nat) (off : Nat) : Int :=
  let first : Int := (getB data off : Int)
  jsOrI first ((jsAndMask first 128 : Nat) * 0x1fffffe) * 4294967296 +
    (getB data (off + 1) : Int) * 16777216 +
    (getB data (off + 2) : Int) * 65536 +
    (getB data (off + 3) : Int) * 256 +
    (getB data (off + 4) : Int)

/-- encoding.js `isSafe(hi, lo)`: whether a signed 64-bit value with the given
high/low words is within the exactly representable range. -/
def isSafe (hi lo : Int) : Bool :=
  let hi2 : Int :=
    if hi < 0 then
      let h := jsNot hi
      if lo = 0 then h + 1 else h
    else hi
  jsAndMask hi2 0xffe00000 = 0

/-- encoding.js `readI64`.  NOTE (faithful to the source): the call
`enforce(isSafe(hi, lo), 'Number exceeds 2^53-1')` passes only two arguments,
so the `offset` parameter receives the message string and `reason` is
`undefined`. -/
def readI64 (data : List Nat) (off : Nat) : Except EncodingError Int := do
  let hi := readI32 data (off + 4)
  let lo := readU32 data off
  enforce (isSafe hi lo) (.str "Number exceeds 2^53-1") .undef
  pure (hi * 4294967296 + lo)

/-- encoding.js `readI56` (same two-argument `enforce` call as `readI64`). -/
def readI56 (data : List Nat) (off : Nat) : Except EncodingError Int := do
  let hi := readI24 data (off + 4)
  let lo := readU32 data off
  enforce (isSafe hi lo) (.str "Number exceeds 2^53-1") .undef
  pure (hi * 4294967296 + lo)

/-- encoding.js `readI64BE` (same two-argument `enforce` call as `readI64`). -/
def readI64BE (data : List Nat) (off : Nat) : Except EncodingError Int := do
  let hi := readI32BE data off
  let lo := readU32BE data (off + 4)
  enforce (isSafe hi lo) (.str "Number exceeds 2^53-1") .undef
  pure (hi * 4294967296 + lo)

/-- encoding.js `readI56BE` (same two-argument `enforce` call as `readI64`). -/
def readI56BE (data : List Nat) (off : Nat) : Except EncodingError Int := do
  let hi := readI24BE data off
  let lo := readU32BE data (off + 3)
  enforce (isSafe hi lo) (.str "Number exceeds 2^53-1") .undef
  pure (hi * 4294967296 + lo)

/-! ## Width dispatchers, reading -/

/-- encoding.js `readU(data, off, len)`. -/
def readU (data : List Nat) (off : Nat) (len : Int) : Except EncodingError Int :=
  if len = 8 then readU64 data off
  else if len = 7 then readU56 data off
  else if len = 6 then .ok (readU48 data off)
  else if len = 5 then .ok (readU40 data off)
  else if len = 4 then .ok (readU32 data off)
  else if len = 3 then .ok (readU24 data off)
  else if len = 2 then .ok (readU16 data off)
  else if len = 1 then .ok (readU8 data off)
  else .error ⟨.num off, .str "Invalid read length"⟩

/-- encoding.js `readUBE(data, off, len)`. -/
def readUBE (data : List Nat) (off : Nat) (len : Int) : Except EncodingError Int :=
  if len = 8 then readU64BE data off
  else if len = 7 then readU56BE data off
  else if len = 6 then .ok (readU48BE data off)
  else if len = 5 then .ok (readU40BE data off)
  else if len = 4 then .ok (readU32BE data off)
  else if len = 3 then .ok (readU24BE data off)
  else if len = 2 then .ok (readU16BE data off)
  else if len = 1 then .ok (readU8 data off)
  else .error ⟨.num off, .str "Invalid read length"⟩

/-- encoding.js `readI(data, off, len)`. -/
def readI (data : List Nat) (off : Nat) (len : Int) : Except EncodingError Int :=
  if len = 8 then readI64 data off
  else if len = 7 then readI56 data off
  else if len = 6 then .ok (readI48 data off)
  else if len = 5 then .ok (readI40 data off)
  else if len = 4 then .ok (readI32 data off)
  else if len = 3 then .ok (readI24 data off)
  else if len = 2 then .ok (readI16 data off)
  else if len = 1 then .ok (readI8 data off)
  else .error ⟨.num off, .str "Invalid read length"⟩

/-- encoding.js `readIBE(data, off, len)`. -/
def readIBE (data : List Nat) (off : Nat) (len : Int) : Except EncodingError Int :=
  if len = 8 then readI64BE data off
  else if len = 7 then readI56BE data off
  else if len = 6 then .ok (readI48BE data off)
  else if len = 5 then .ok (readI40BE data off)
  else if len = 4 then .ok (readI32BE data off)
  else if len = 3 then .ok (readI24BE data off)
  else if len = 2 then .ok (readI16BE data off)
  else if len = 1 then .ok (readI8 data off)
  else .error ⟨.num off, .str "Invalid read length"⟩

/-! ## Fixed-width writes (`encoding.js`).  Each writer returns the new
offset together with the updated buffer (the JS functions mutate `dst` and
return the offset). -/

/-- encoding.js `writeU8`. -/
def writeU8 (dst : List Nat) (num : Int) (off : Nat) : Nat × List Nat :=
  (off + 1, setB dst off num)

/-- encoding.js `writeU16`. -/
def writeU16 (dst : List Nat) (num : Int) (off : Nat) : Nat × List Nat :=
  let d0 := setB dst off num
  let d1 := setB d0 (off + 1) (jsShrU num 8)
  (off + 2, d1)

/-- encoding.js `writeU16BE`. -/
def writeU16BE (dst : List Nat) (num : Int) (off : Nat) : Nat × List Nat :=
  let d0 := setB dst off (jsShrU num 8)
  let d1 := setB d0 (off + 1) num
  (off + 2, d1)

/-- encoding.js `writeU24`. -/
def writeU24 (dst : List Nat) (num : Int) (off : Nat) : Nat × List Nat :=
  let d0 := setB dst off num
  let n1 := jsShrU num 8
  let d1 := setB d0 (off + 1) n1
  let n2 := jsShrU n1 8
  let d2 := setB d1 (off + 2) n2
  (off + 3, d2)

/-- encoding.js `writeU24BE`. -/
def writeU24BE (dst : List Nat) (num : Int) (off : Nat) : Nat × List Nat :=
  let d0 := setB dst (off + 2) num
  let n1 := jsShrU num 8
  let d1 := setB d0 (off + 1) n1
  let n2 := jsShrU n1 8
  let d2 := setB d1 off n2
  (off + 3, d2)

/-- encoding.js `writeU32`. -/
def writeU32 (dst : List Nat) (num : Int) (off : Nat) : Nat × List Nat :=
  let d0 := setB dst off num
  let n1 := jsShrU num 8
  let d1 := setB d0 (off + 1) n1
  let n2 := jsShrU n1 8
  let d2 := setB d1 (off + 2) n2
  let n3 := jsShrU n2 8
  let d3 := setB d2 (off + 3) n3
  (off + 4, d3)

/-- encoding.js `writeU32BE`. -/
def writeU32BE (dst : List Nat) (num : Int) (off : Nat) : Nat × List Nat :=
  let d0 := setB dst (off + 3) num
  let n1 := jsShrU num 8
  let d1 := setB d0 (off + 2) n1
  let n2 := jsShrU n1 8
  let d2 := setB d1 (off + 1) n2
  let n3 := jsShrU n2 8
  let d3 := setB d2 off n3
  (off + 4, d3)

/-- encoding.js `writeU40`: low 32-bit shift chain plus
`floor(num * 2 ** -32)` as the fifth byte. -/
def writeU40 (dst : List Nat) (num : Int) (off : Nat) : Nat × List Nat :=
  let d0 := setB dst off num
  let n1 := jsShrU num 8
  let d1 := setB d0 (off + 1) n1
  let n2 := jsShrU n1 8
  let d2 := setB d1 (off + 2) n2
  let n3 := jsShrU n2 8
  let d3 := setB d2 (off + 3) n3
  let d4 := setB d3 (off + 4) (Int.fdiv num 4294967296)
  (off + 5, d4)

/-- encoding.js `writeU40BE`. -/
def writeU40BE (dst : List Nat) (num : Int) (off : Nat) : Nat × List Nat :=
  let d0 := setB dst off (Int.fdiv num 4294967296)
  let d1 := setB d0 (off + 4) num
  let n1 := jsShrU num 8
  let d2 := setB d1 (off + 3) n1
  let n2 := jsShrU n1 8
  let d3 := setB d2 (off + 2) n2
  let n3 := jsShrU n2 8
  let d4 := setB d3 (off + 1) n3
  (off + 5, d4)

/-- encoding.js `writeU48`: `newVal = floor(num * 2 ** -32)` supplies the top
two bytes. -/
def writeU48 (dst : List Nat) (num : Int) (off : Nat) : Nat × List Nat :=
  let newVal := Int.fdiv num 4294967296
  let d0 := setB dst off num
  let n1 := jsShrU num 8
  let d1 := setB d0 (off + 1) n1
  let n2 := jsShrU n1 8
  let d2 := setB d1 (off + 2) n2
  let n3 := jsShrU n2 8
  let d3 := setB d2 (off + 3) n3
  let d4 := setB d3 (off + 4) newVal
  let d5 := setB d4 (off + 5) (jsShrU newVal 8)
  (off + 6, d5)

/-- encoding.js `writeU48BE`. -/
def writeU48BE (dst : List Nat) (num : Int) (off : Nat) : Nat × List Nat :=
  let newVal := Int.fdiv num 4294967296
  let d0 := setB dst off (jsShrU newVal 8)
  let d1 := setB d0 (off + 1) newVal
  let d2 := setB d1 (off + 5) num
  let n1 := jsShrU num 8
  let d3 := setB d2 (off + 4) n1
  let n2 := jsShrU n1 8
  let d4 := setB d3 (off + 3) n2
  let n3 := jsShrU n2 8
  let d5 := setB d4 (off + 2) n3
  (off + 6, d5)

/-- encoding.js `writeI32` (alias of `writeU32`). -/
def writeI32 (dst : List Nat) (num : Int) (off : Nat) : Nat × List Nat :=
  writeU32 dst num off

/-- encoding.js `writeI32BE` (alias of `writeU32BE`). -/
def writeI32BE (dst : List Nat) (num : Int) (off : Nat) : Nat × List Nat :=
  writeU32BE dst num off

/-- encoding.js `writeI24` (alias of `writeU24`). -/
def writeI24 (dst : List Nat) (num : Int) (off : Nat) : Nat × List Nat :=
  writeU24 dst num off

/-- encoding.js `writeI24BE` (alias of `writeU24BE`). -/
def writeI24BE (dst : List Nat) (num : Int) (off : Nat) : Nat × List Nat :=
  writeU24BE dst num off

/-- encoding.js `write64(dst, num, off, be)`: two's-complement construction
from a 32-bit low word and a 32-bit high word. -/
def write64 (dst : List Nat) (num : Int) (off : Nat) (be : Bool) : Nat × List Nat :=
  let neg := num < 0
  let num1 := if neg then -num else num
  let hi0 := jsToInt32 (num1 / 4294967296)
  let lo0 := jsToInt32 num1
  let hi := if neg then (if lo0 = 0 then jsToInt32 (jsNot hi0 + 1) else jsNot hi0) else hi0
  let lo := if neg then (if lo0 = 0 then lo0 else jsNot lo0 + 1) else lo0
  if be then
    let (off1, d1) := writeI32BE dst hi off
    writeI32BE d1 lo off1
  else
    let (off1, d1) := writeI32 dst lo off
    writeI32 d1 hi off1

/-- encoding.js `write56(dst, num, off, be)`: like `write64` with a 24-bit
high word. -/
def write56 (dst : List Nat) (num : Int) (off : Nat) (be : Bool) : Nat × List Nat :=
  let neg := num < 0
  let num1 := if neg then -num else num
  let hi0 := jsToInt32 (num1 / 4294967296)
  let lo0 := jsToInt32 num1
  let hi := if neg then (if lo0 = 0 then jsToInt32 (jsNot hi0 + 1) else jsNot hi0) else hi0
  let lo := if neg then (if lo0 = 0 then lo0 else jsNot lo0 + 1) else lo0
  if be then
    let (off1, d1) := writeI24BE dst hi off
    writeI32BE d1 lo off1
  else
    let (off1, d1) := writeI32 dst lo off
    writeI24 d1 hi off1

/-- encoding.js `writeU64`. -/
def writeU64 (dst : List Nat) (num : Int) (off : Nat) : Nat × List Nat :=
  write64 dst num off false

/-- encoding.js `writeU64BE`. -/
def writeU64BE (dst : List Nat) (num : Int) (off : Nat) : Nat × List Nat :=
  write64 dst num off true

/-- encoding.js `writeU56`. -/
def writeU56 (dst : List Nat) (num : Int) (off : Nat) : Nat × List Nat :=
  write56 dst num off false

/-- encoding.js `writeU56BE`. -/
def writeU56BE (dst : List Nat) (num : Int) (off : Nat) : Nat × List Nat :=
  write56 dst num off true

/-- JS signed right shift `n >> k` (`ToInt32` then arithmetic shift, which is
flooring division by `2^k`). -/
def jsShrS (n : Int) (k : Nat) : Int :=
  Int.fdiv (jsToInt32 n) ((2 : Int) ^ k)

/-! ## Width dispatchers, writing -/

/-- encoding.js `writeU(dst, num, off, len)`. -/
def writeU (dst : List Nat) (num : Int) (off : Nat) (len : Int) :
    Except EncodingError (Nat × List Nat) :=
  if len = 8 then .ok (writeU64 dst num off)
  else if len = 7 then .ok (writeU56 dst num off)
  else if len = 6 then .ok (writeU48 dst num off)
  else if len = 5 then .ok (writeU40 dst num off)
  else if len = 4 then .ok (writeU32 dst num off)
  else if len = 3 then .ok (writeU24 dst num off)
  else if len = 2 then .ok (writeU16 dst num off)
  else if len = 1 then .ok (writeU8 dst num off)
  else .error ⟨.num off, .str "Invalid write length"⟩

/-- encoding.js `writeUBE(dst, num, off, len)`. -/
def writeUBE (dst : List Nat) (num : Int) (off : Nat) (len : Int) :
    Except EncodingError (Nat × List Nat) :=
  if len = 8 then .ok (writeU64BE dst num off)
  else if len = 7 then .ok (writeU56BE dst num off)
  else if len = 6 then .ok (writeU48BE dst num off)
  else if len = 5 then .ok (writeU40BE dst num off)
  else if len = 4 then .ok (writeU32BE dst num off)
  else if len = 3 then .ok (writeU24BE dst num off)
  else if len = 2 then .ok (writeU16BE dst num off)
  else if len = 1 then .ok (writeU8 dst num off)
  else .error ⟨.num off, .str "Invalid write length"⟩

/-- encoding.js `writeI(dst, num, off, len)`.  NOTE (faithful to the source):
the `case 4` branch calls `writeU24` and the `case 3` branch calls `writeU32`
— the two branches are transposed relative to every other dispatcher in the
file. -/
def writeI (dst : List Nat) (num : Int) (off : Nat) (len : Int) :
    Except EncodingError (Nat × List Nat) :=
  if len = 8 then .ok (writeU64 dst num off)
  else if len = 7 then .ok (writeU56 dst num off)
  else if len = 6 then .ok (writeU48 dst num off)
  else if len = 5 then .ok (writeU40 dst num off)
  else if len = 4 then .ok (writeU24 dst num off)
  else if len = 3 then .ok (writeU32 dst num off)
  else if len = 2 then .ok (writeU16 dst num off)
  else if len = 1 then .ok (writeU8 dst num off)
  else .error ⟨.num off, .str "Invalid write length"⟩

/-- encoding.js `writeIBE(dst, num, off, len)`. -/
def writeIBE (dst : List Nat) (num : Int) (off : Nat) (len : Int) :
    Except EncodingError (Nat × List Nat) :=
  if len = 8 then .ok (writeU64BE dst num off)
  else if len = 7 then .ok (writeU56BE dst num off)
  else if len = 6 then .ok (writeU48BE dst num off)
  else if len = 5 then .ok (writeU40BE dst num off)
  else if len = 4 then .ok (writeU32BE dst num off)
  else if len = 3 then .ok (writeU24BE dst num off)
  else if len = 2 then .ok (writeU16BE dst num off)
  else if len = 1 then .ok (writeU8 dst num off)
  else .error ⟨.num off, .str "Invalid write length"⟩

/-- Sequential byte stores `dst[off++] = b` for each listed byte. -/
def writeListB (dst : List Nat) (off : Nat) : List Nat → List Nat
  | [] => dst
  | b :: rest => writeListB (setB dst off (b : Int)) (off + 1) rest

/-! ## Compact (Bitcoin-style) varints (`encoding.js`) -/

/-- encoding.js `readVarint(data, off)`: returns `(size, value)` (the fields
of the returned `Varint` object) or the thrown `EncodingError`. -/
def readVarint (data : List Nat) (off : Nat) : Except EncodingError (Nat × Int) := do
  check (off < data.length) off
  let m := getB data off
  if m = 0xff then do
    check (off + 9 ≤ data.length) off
    let value ← readU64 data (off + 1)
    enforce (value > 0xffffffff) (.num off) (.str "Non-canonical varint")
    pure (9, value)
  else if m = 0xfe then do
    check (off + 5 ≤ data.length) off
    let value := readU32 data (off + 1)
    enforce (value > 0xffff) (.num off) (.str "Non-canonical varint")
    pure (5, value)
  else if m = 0xfd then do
    check (off + 3 ≤ data.length) off
    let value := jsOrI (getB data (off + 1) : Int) (jsShl (getB data (off + 2) : Int) 8)
    enforce (value ≥ 0xfd) (.num off) (.str "Non-canonical varint")
    pure (3, value)
  else
    pure (1, (m : Int))

/-- encoding.js `writeVarint(dst, num, off)`. -/
def writeVarint (dst : List Nat) (num : Int) (off : Nat) : Nat × List Nat :=
  if num < 0xfd then
    (off + 1, setB dst off ((jsAndMask num 255 : Nat) : Int))
  else if num ≤ 0xffff then
    let d0 := setB dst off 0xfd
    let d1 := setB d0 (off + 1) ((jsAndMask num 255 : Nat) : Int)
    let d2 := setB d1 (off + 2) ((jsAndMask (jsShrS num 8) 255 : Nat) : Int)
    (off + 3, d2)
  else if num ≤ 0xffffffff then
    let d0 := setB dst off 0xfe
    let d1 := setB d0 (off + 1) ((jsAndMask num 255 : Nat) : Int)
    let d2 := setB d1 (off + 2) ((jsAndMask (jsShrS num 8) 255 : Nat) : Int)
    let d3 := setB d2 (off + 3) ((jsAndMask (jsShrS num 16) 255 : Nat) : Int)
    let d4 := setB d3 (off + 4) (jsShrU num 24)
    (off + 5, d4)
  else
    let d0 := setB dst off 0xff
    writeU64 d0 num (off + 1)

/-- encoding.js `sizeVarint(num)`. -/
def sizeVarint (num : Int) : Nat :=
  if num < 0xfd then 1
  else if num ≤ 0xffff then 3
  else if num ≤ 0xffffffff then 5
  else 9

/-! ## Bit-packed varints (`encoding.js`, `readVarint2` / `writeVarint2`) -/

/-- The loop of encoding.js `readVarint2`: `off`, `num` and `size` are the
loop variables (`const ch = data[off++]` reads the byte and bumps the offset,
so the `enforce` offsets are `off + 1`).  The accumulator is nonnegative
throughout, so it is carried as a `Nat`; `ch & 0x7f` and `ch & 0x80` on a
byte-valued `ch` are the corresponding `Nat` masks. -/
def rv2Loop (data : List Nat) (off num size : Nat) :
    Except EncodingError (Nat × Nat) :=
  if off < data.length then
    let ch := getB data off
    if num ≤ 0x3fffffffffff - (ch &&& 127) then
      let num2 := num * 128 + (ch &&& 127)
      if ch &&& 128 = 0 then
        .ok (size + 1, num2)
      else if num2 = 9007199254740991 then
        .error ⟨.num (off + 1), .str "Number exceeds 2^53-1"⟩
      else
        rv2Loop data (off + 1) (num2 + 1) (size + 1)
    else
      .error ⟨.num (off + 1), .str "Number exceeds 2^53-1"⟩
  else
    .error ⟨.num off, .str "Out of bounds read"⟩
termination_by data.length - off
decreasing_by simp_wf; omega

/-- encoding.js `readVarint2(data, off)`: returns `(size, value)`. -/
def readVarint2 (data : List Nat) (off : Nat) : Except EncodingError (Nat × Nat) :=
  rv2Loop data off 0 0

/-- The loop of `readVarint2` restated on the suffix of the buffer that is
still to be read (structurally recursive companion of `rv2Loop`, used for
proofs and for kernel evaluation): returns `(bytes consumed, value)`. -/
def rv2Core (num : Nat) : List Nat → Option (Nat × Nat)
  | [] => none
  | ch :: rest =>
    if num ≤ 0x3fffffffffff - (ch &&& 127) then
      let num2 := num * 128 + (ch &&& 127)
      if ch &&& 128 = 0 then some (1, num2)
      else if num2 = 9007199254740991 then none
      else
        match rv2Core (num2 + 1) rest with
        | some (s, v) => some (s + 1, v)
        | none => none
    else none

/-- The `tmp` array built by encoding.js `writeVarint2` (and, byte for byte,
the loop of `sizeVarint2`), listed in production order
`[tmp[0], tmp[1], ...]`: least-significant 7-bit group first, every group
after the first biased on the way up by `num = (num - num % 0x80) / 0x80 - 1`
and tagged with the continuation bit. -/
def v2tmp (num : Int) (len : Nat) : List Nat :=
  let b : Nat := (jsAndMask num 127) ||| (if len = 0 then 0 else 128)
  if num ≤ 127 then [b]
  else b :: v2tmp ((num - num % 128) / 128 - 1) (len + 1)
termination_by num.toNat
decreasing_by
  simp_wf
  have h2 : num - num % 128 = 128 * (num / 128) := by omega
  have h : (num - num % 128) / 128 = num / 128 := by
    rw [h2]; exact Int.mul_ediv_cancel_left _ (by norm_num)
  rw [h]
  omega

/-- encoding.js `writeVarint2(dst, num, off)`: emits `tmp` most-significant
group first after the bounds check `check(off + len + 1 <= dst.length, off)`
(`len + 1` is the number of groups). -/
def writeVarint2 (dst : List Nat) (num : Int) (off : Nat) :
    Except EncodingError (Nat × List Nat) :=
  let tmp := v2tmp num 0
  if off + tmp.length ≤ dst.length then
    .ok (off + tmp.length, writeListB dst off tmp.reverse)
  else
    .error ⟨.num off, .str "Out of bounds read"⟩

/-- encoding.js `sizeVarint2(num)`. -/
def sizeVarint2 (num : Int) : Nat :=
  if num ≤ 127 then 1
  else 1 + sizeVarint2 ((num - num % 128) / 128 - 1)
termination_by num.toNat
decreasing_by
  simp_wf
  have h2 : num - num % 128 = 128 * (num / 128) := by omega
  have h : (num - num % 128) / 128 = num / 128 := by
    rw [h2]; exact Int.mul_ediv_cancel_left _ (by norm_num)
  rw [h]
  omega

/-! ## BufferReader (`lib/reader.js`)

The reader is a mutable cursor; it is modelled as explicit state passing.
A method that throws is modelled as `Except.error` carrying, next to the
thrown error, the state of the reader at the moment of the throw (JS
exceptions do not roll back mutations, so partial advances are visible
there).  `this.assert` throws an offset-tagged out-of-bounds
`EncodingError`; the plain Node `assert` calls throw an `AssertionError`. -/

/-- A reader error: an `EncodingError` (from `this.assert` / `this.enforce`
or from `encoding.js`), or a Node `AssertionError`. -/
inductive RErr where
  | enc (e : EncodingError)
  | assertionError
deriving DecidableEq, Repr

/-- State of a `BufferReader`: buffer, cursor offset, zero-copy flag and the
span stack.  The JS stack pushes and pops at the array end; here the most
recently pushed start offset is the head of the list. -/
structure RState where
  data : List Nat
  offset : Nat
  zeroCopy : Bool
  stack : List Nat
deriving DecidableEq, Repr

/-- A buffer handed back to the caller: either a fresh copy of bytes (its
content frozen at creation time) or a view aliasing a range of the source
buffer (`data.slice` on a Node buffer aliases; so does returning `data`
itself, which is the view of the whole buffer). -/
inductive RetBuf where
  | copy (bytes : List Nat)
  | view (start stop : Nat)
deriving DecidableEq, Repr

/-- The bytes an aliasing or copied return value shows when the source
buffer currently holds `source`: a copy is frozen, a view reads through. -/
def valueOf (source : List Nat) : RetBuf → List Nat
  | .copy bs => bs
  | .view a b => extract source a (b - a)

/-- A value returned by a read operation: a number, a returned buffer, or a
decoded string (represented by the byte span it was decoded from). -/
inductive RResult where
  | num (v : Int)
  | rbuf (b : RetBuf)
  | rstr (bytes : List Nat)
deriving DecidableEq, Repr

/-- The out-of-bounds error thrown by `this.assert`. -/
def rBounds (s : RState) : RErr × RState :=
  (.enc ⟨.num s.offset, .str "Out of bounds read"⟩, s)

/-- Shared shape of the fixed-width numeric read methods
(`readU8` .. `readDoubleBE` on the reader): bounds assertion, pure decode,
advance by the width. -/
def rdFixed (width : Nat) (f : List Nat → Nat → Int) (s : RState) :
    Except (RErr × RState) (RResult × RState) :=
  if s.offset + width ≤ s.data.length then
    .ok (.num (f s.data s.offset), ⟨s.data, s.offset + width, s.zeroCopy, s.stack⟩)
  else
    .error (rBounds s)

/-- Shared shape of the 64/56-bit reads whose `encoding.js` decoder can
itself throw (the throw happens before `this.offset` is advanced). -/
def rdFixedE (width : Nat) (f : List Nat → Nat → Except EncodingError Int)
    (s : RState) : Except (RErr × RState) (RResult × RState) :=
  if s.offset + width ≤ s.data.length then
    match f s.data s.offset with
    | .ok v => .ok (.num v, ⟨s.data, s.offset + width, s.zeroCopy, s.stack⟩)
    | .error e => .error (.enc e, s)
  else
    .error (rBounds s)

/-- Bit pattern read by Node `readDoubleLE` (only the cursor movement of the
float reads matters to the claims; the value is modelled as the raw 64-bit
little-endian pattern). -/
def readDoubleBits (data : List Nat) (off : Nat) : Int :=
  readU32 data off + readU32 data (off + 4) * 4294967296

/-- Bit pattern read by Node `readDoubleBE`. -/
def readDoubleBitsBE (data : List Nat) (off : Nat) : Int :=
  readU32BE data off * 4294967296 + readU32BE data (off + 4)

/-- reader.js `readVarint`: decode at the cursor, then advance by the size. -/
def rdVarintOp (s : RState) : Except (RErr × RState) ((Nat × Int) × RState) :=
  match readVarint s.data s.offset with
  | .ok (size, value) =>
      .ok ((size, value), ⟨s.data, s.offset + size, s.zeroCopy, s.stack⟩)
  | .error e => .error (.enc e, s)

/-- reader.js `readVarint2`. -/
def rdVarint2Op (s : RState) : Except (RErr × RState) ((Nat × Nat) × RState) :=
  match readVarint2 s.data s.offset with
  | .ok (size, value) =>
      .ok ((size, value), ⟨s.data, s.offset + size, s.zeroCopy, s.stack⟩)
  | .error e => .error (.enc e, s)

/-- reader.js `readBytes(size, zeroCopy)`: `assert(size >= 0)` (Node assert),
bounds assertion, slice-or-copy, advance. -/
def rdBytesOp (size : Int) (zeroCopy : Bool) (s : RState) :
    Except (RErr × RState) (RetBuf × RState) :=
  if size < 0 then .error (.assertionError, s)
  else if (s.offset : Int) + size ≤ (s.data.length : Int) then
    let ret : RetBuf :=
      if s.zeroCopy || zeroCopy then .view s.offset (s.offset + size.toNat)
      else .copy (extract s.data s.offset size.toNat)
    .ok (ret, ⟨s.data, s.offset + size.toNat, s.zeroCopy, s.stack⟩)
  else .error (rBounds s)

/-- reader.js `readString(enc, size)` (the decoded string is represented by
the byte span it came from; the text encoding does not move the cursor). -/
def rdStringOp (size : Int) (s : RState) :
    Except (RErr × RState) (List Nat × RState) :=
  if size < 0 then .error (.assertionError, s)
  else if (s.offset : Int) + size ≤ (s.data.length : Int) then
    .ok (extract s.data s.offset size.toNat,
      ⟨s.data, s.offset + size.toNat, s.zeroCopy, s.stack⟩)
  else .error (rBounds s)

/-- The scan loop of `readNullString`: first index `i ≥ start` with
`data[i] === 0`, or `data.length` when the loop runs off the end (or `start`
itself when `start` is already past the end). -/
def scanZero (data : List Nat) (i : Nat) : Nat :=
  if i < data.length then
    if getB data i = 0 then i else scanZero data (i + 1)
  else i
termination_by data.length - i
decreasing_by simp_wf; omega

/-- reader.js `readNullString(enc)`: bounds assertion, scan for the zero
byte, assertion that one was found, delegate to `readString`, then place the
cursor just past the terminator. -/
def rdNullStringOp (s : RState) : Except (RErr × RState) (List Nat × RState) :=
  if s.offset + 1 ≤ s.data.length then
    let i := scanZero s.data s.offset
    if i ≠ s.data.length then
      match rdStringOp ((i : Int) - (s.offset : Int)) s with
      | .ok (bs, s1) => .ok (bs, ⟨s1.data, i + 1, s1.zeroCopy, s1.stack⟩)
      | .error e => .error e
    else .error (rBounds s)
  else .error (rBounds s)

/-- reader.js `readVarBytes(zeroCopy)` =
`this.readBytes(this.readVarint(), zeroCopy)`: note that the varint read
advances the cursor before `readBytes` runs its bounds assertion. -/
def rdVarBytesOp (zeroCopy : Bool) (s : RState) :
    Except (RErr × RState) (RetBuf × RState) := do
  let ((_, value), s1) ← rdVarintOp s
  rdBytesOp value zeroCopy s1

/-- reader.js `readVarString(enc, limit)`: varint size, then
`this.enforce(!limit || size <= limit, 'String exceeds limit.')` (a zero or
missing limit is falsy and disables the check), then `readString`. -/
def rdVarStringOp (limit : Option Int) (s : RState) :
    Except (RErr × RState) (List Nat × RState) := do
  let ((_, size), s1) ← rdVarintOp s
  let pass := match limit with
    | none => true
    | some l => l = 0 || size ≤ l
  if pass then rdStringOp size s1
  else .error (.enc ⟨.num s1.offset, .str "String exceeds limit."⟩, s1)

/-- reader.js `start()`: push the current offset. -/
def startOp (s : RState) : Nat × RState :=
  (s.offset, ⟨s.data, s.offset, s.zeroCopy, s.offset :: s.stack⟩)

/-- reader.js `end()`: pop the innermost start offset and return the number
of bytes consumed since it was pushed (Node `assert` on an empty stack). -/
def endOp (s : RState) : Except (RErr × RState) (Int × RState) :=
  match s.stack with
  | [] => .error (.assertionError, s)
  | start :: rest =>
      .ok ((s.offset : Int) - (start : Int), ⟨s.data, s.offset, s.zeroCopy, rest⟩)

/-- reader.js `endData(zeroCopy)`: pop the innermost start offset and return
the consumed byte range.  When that range is the whole buffer the buffer
itself is returned (an aliasing view even in copying mode); otherwise a
slice (zero-copy) or a fresh copy.  Spans are used forward
(`start ≤ offset`); the size is the natural-number difference. -/
def endDataOp (zeroCopy : Bool) (s : RState) :
    Except (RErr × RState) (RetBuf × RState) :=
  match s.stack with
  | [] => .error (.assertionError, s)
  | start :: rest =>
      let e := s.offset
      let size := e - start
      let ret : RetBuf :=
        if size = s.data.length then .view 0 s.data.length
        else if s.zeroCopy || zeroCopy then .view start e
        else .copy (extract s.data start size)
      .ok (ret, ⟨s.data, s.offset, s.zeroCopy, rest⟩)

/-- The read operations of `BufferReader` named in the claims, with their
arguments (`enc` parameters are omitted: the text encoding affects neither
the cursor nor the byte span). -/
inductive ROp where
  | u8 | u16 | u16be | u32 | u32be | u64 | u64be
  | i8 | i16 | i16be | i32 | i32be | i64 | i64be
  | f32 | f32be | f64 | f64be
  | varint | varint2
  | bytes (size : Int) (zc : Bool)
  | strO (size : Int)
  | nullStr
  | varBytes (zc : Bool)
  | varStr (limit : Option Int)
deriving DecidableEq, Repr

/-- Run one read operation on a reader state. -/
def runRead : ROp → RState → Except (RErr × RState) (RResult × RState)
  | .u8 => rdFixed 1 readU8
  | .u16 => rdFixed 2 readU16
  | .u16be => rdFixed 2 readU16BE
  | .u32 => rdFixed 4 readU32
  | .u32be => rdFixed 4 readU32BE
  | .u64 => rdFixedE 8 readU64
  | .u64be => rdFixedE 8 readU64BE
  | .i8 => rdFixed 1 readI8
  | .i16 => rdFixed 2 readI16
  | .i16be => rdFixed 2 readI16BE
  | .i32 => rdFixed 4 readI32
  | .i32be => rdFixed 4 readI32BE
  | .i64 => rdFixedE 8 readI64
  | .i64be => rdFixedE 8 readI64BE
  | .f32 => rdFixed 4 readU32
  | .f32be => rdFixed 4 readU32BE
  | .f64 => rdFixed 8 readDoubleBits
  | .f64be => rdFixed 8 readDoubleBitsBE
  | .varint => fun s => (rdVarintOp s).map (fun x => (.num x.1.2, x.2))
  | .varint2 => fun s => (rdVarint2Op s).map (fun x => (.num (x.1.2 : Int), x.2))
  | .bytes size zc => fun s => (rdBytesOp size zc s).map (fun x => (.rbuf x.1, x.2))
  | .strO size => fun s => (rdStringOp size s).map (fun x => (.rstr x.1, x.2))
  | .nullStr => fun s => (rdNullStringOp s).map (fun x => (.rstr x.1, x.2))
  | .varBytes zc => fun s => (rdVarBytesOp zc s).map (fun x => (.rbuf x.1, x.2))
  | .varStr limit => fun s => (rdVarStringOp limit s).map (fun x => (.rstr x.1, x.2))

/-- Number of bytes an operation consumes from state `s` when it succeeds. -/
def consumedBytes : ROp → RState → Nat
  | .u8, _ | .i8, _ => 1
  | .u16, _ | .u16be, _ | .i16, _ | .i16be, _ => 2
  | .u32, _ | .u32be, _ | .i32, _ | .i32be, _ | .f32, _ | .f32be, _ => 4
  | .u64, _ | .u64be, _ | .i64, _ | .i64be, _ | .f64, _ | .f64be, _ => 8
  | .varint, s =>
      match readVarint s.data s.offset with
      | .ok (size, _) => size
      | .error _ => 0
  | .varint2, s =>
      match readVarint2 s.data s.offset with
      | .ok (size, _) => size
      | .error _ => 0
  | .bytes size _, _ => size.toNat
  | .strO size, _ => size.toNat
  | .nullStr, s => scanZero s.data s.offset + 1 - s.offset
  | .varBytes _, s =>
      match readVarint s.data s.offset with
      | .ok (size, value) => size + value.toNat
      | .error _ => 0
  | .varStr _, s =>
      match readVarint s.data s.offset with
      | .ok (size, value) => size + value.toNat
      | .error _ => 0

/-- The operations whose failure is checked before any cursor movement
(every read in the claim except the two composite length-prefixed reads). -/
def primOp : ROp → Bool
  | .varBytes _ => false
  | .varStr _ => false
  | _ => true

/-! ## Writer family

`StaticWriter` (`lib/staticwriter.js`) writes into a fixed buffer;
`SizeWriter` (`sizewriter.js`) only counts; `HashWriter` (`hashwriter.js`)
feeds bytes to a streaming digest.  A write operation is a `WOp`; a JS
string argument is modelled as its UTF-16 length (`value.length`, the code
only ever tests it against `0`) together with its encoded bytes
(`Buffer.byteLength(value, enc)` is their length).  Node buffer builtins
(`writeUInt16LE` etc., called with the legacy `noAssert` flag) are modelled
as truncating byte stores, the same store semantics as `encoding.js` uses.
A float argument is carried as its IEEE-754 bit pattern. -/

/-- The `n` little-endian base-256 digits of `v`. -/
def leBytesN : Nat → Nat → List Nat
  | 0, _ => []
  | n + 1, v => v % 256 :: leBytesN n (v / 256)

/-- A write operation supported by both `SizeWriter` and `StaticWriter`. -/
inductive WOp where
  | u8 (v : Int) | u16 (v : Int) | u16be (v : Int) | u32 (v : Int) | u32be (v : Int)
  | u64 (v : Int) | u64be (v : Int)
  | i8 (v : Int) | i16 (v : Int) | i16be (v : Int) | i32 (v : Int) | i32be (v : Int)
  | i64 (v : Int) | i64be (v : Int)
  | f32 (bits : Nat) | f32be (bits : Nat) | f64 (bits : Nat) | f64be (bits : Nat)
  | varint (v : Int) | varint2 (v : Int)
  | bytes (bs : List Nat)
  | varBytes (bs : List Nat)
  | strW (chars : Nat) (enc : List Nat)
  | varStrW (chars : Nat) (enc : List Nat)
  | nullStrW (chars : Nat) (enc : List Nat)
  | hashB (bs : List Nat)
  | hashS (chars : Nat) (decoded : List Nat)
  | fill (v : Int) (size : Nat)
  | copyW (bs : List Nat) (start stop : Nat)
  | chksum
deriving DecidableEq, Repr

/-- sizewriter.js: each method only advances `this.offset`.  This is the
transcription of the `SizeWriter` method bodies. -/
def runSize : WOp → Nat → Nat
  | .u8 _, off | .i8 _, off => off + 1
  | .u16 _, off | .u16be _, off | .i16 _, off | .i16be _, off => off + 2
  | .u32 _, off | .u32be _, off | .i32 _, off | .i32be _, off => off + 4
  | .u64 _, off | .u64be _, off | .i64 _, off | .i64be _, off => off + 8
  | .f32 _, off | .f32be _, off => off + 4
  | .f64 _, off | .f64be _, off => off + 8
  | .varint v, off => off + sizeVarint v
  | .varint2 v, off => off + sizeVarint2 v
  | .bytes bs, off => off + bs.length
  | .varBytes bs, off => off + sizeVarint (bs.length : Int) + bs.length
  | .strW chars enc, off => if chars = 0 then off else off + enc.length
  | .varStrW chars enc, off =>
      if chars = 0 then off + 1
      else off + sizeVarint (enc.length : Int) + enc.length
  | .nullStrW chars enc, off =>
      (if chars = 0 then off else off + enc.length) + 1
  | .hashB _, off => off + 32
  | .hashS _ _, off => off + 32
  | .fill _ size, off => off + size
  | .copyW _ start stop, off => off + (stop - start)
  | .chksum, off => off + 4

/-- State of a `StaticWriter`: the fixed backing buffer and the cursor. -/
structure SWState where
  data : List Nat
  offset : Nat
deriving DecidableEq, Repr

/-- The slice `value.slice(start, end)` copied by `copy`. -/
def sliceRange (bs : List Nat) (start stop : Nat) : List Nat :=
  (bs.drop start).take (stop - start)

/-- staticwriter.js: run one write operation.  The rare throwing paths
(`assert` in `writeHash`, the bounds `check` inside `writeVarint2`) surface
as errors. -/
def runStatic (hash : List Nat → List Nat) : WOp → SWState → Except RErr SWState
  | .u8 v => fun s =>
      let r := writeU8 s.data v s.offset
      .ok ⟨r.2, r.1⟩
  | .u16 v => fun s =>
      let r := writeU16 s.data v s.offset
      .ok ⟨r.2, r.1⟩
  | .u16be v => fun s =>
      let r := writeU16BE s.data v s.offset
      .ok ⟨r.2, r.1⟩
  | .u32 v => fun s =>
      let r := writeU32 s.data v s.offset
      .ok ⟨r.2, r.1⟩
  | .u32be v => fun s =>
      let r := writeU32BE s.data v s.offset
      .ok ⟨r.2, r.1⟩
  | .u64 v => fun s =>
      let r := writeU64 s.data v s.offset
      .ok ⟨r.2, r.1⟩
  | .u64be v => fun s =>
      let r := writeU64BE s.data v s.offset
      .ok ⟨r.2, r.1⟩
  | .i8 v => fun s =>
      let r := writeU8 s.data v s.offset
      .ok ⟨r.2, r.1⟩
  | .i16 v => fun s =>
      let r := writeU16 s.data v s.offset
      .ok ⟨r.2, r.1⟩
  | .i16be v => fun s =>
      let r := writeU16BE s.data v s.offset
      .ok ⟨r.2, r.1⟩
  | .i32 v => fun s =>
      let r := writeU32 s.data v s.offset
      .ok ⟨r.2, r.1⟩
  | .i32be v => fun s =>
      let r := writeU32BE s.data v s.offset
      .ok ⟨r.2, r.1⟩
  | .i64 v => fun s =>
      let r := writeU64 s.data v s.offset
      .ok ⟨r.2, r.1⟩
  | .i64be v => fun s =>
      let r := writeU64BE s.data v s.offset
      .ok ⟨r.2, r.1⟩
  | .f32 bits => fun s =>
      .ok ⟨writeListB s.data s.offset (leBytesN 4 bits), s.offset + 4⟩
  | .f32be bits => fun s =>
      .ok ⟨writeListB s.data s.offset (leBytesN 4 bits).reverse, s.offset + 4⟩
  | .f64 bits => fun s =>
      .ok ⟨writeListB s.data s.offset (leBytesN 8 bits), s.offset + 8⟩
  | .f64be bits => fun s =>
      .ok ⟨writeListB s.data s.offset (leBytesN 8 bits).reverse, s.offset + 8⟩
  | .varint v => fun s =>
      let r := writeVarint s.data v s.offset
      .ok ⟨r.2, r.1⟩
  | .varint2 v => fun s =>
      match writeVarint2 s.data v s.offset with
      | .ok r => .ok ⟨r.2, r.1⟩
      | .error e => .error (.enc e)
  | .bytes bs => fun s =>
      if bs.length = 0 then .ok s
      else .ok ⟨writeListB s.data s.offset bs, s.offset + bs.length⟩
  | .varBytes bs => fun s =>
      let r := writeVarint s.data (bs.length : Int) s.offset
      if bs.length = 0 then .ok ⟨r.2, r.1⟩
      else .ok ⟨writeListB r.2 r.1 bs, r.1 + bs.length⟩
  | .strW chars enc => fun s =>
      if chars = 0 then .ok s
      else .ok ⟨writeListB s.data s.offset enc, s.offset + enc.length⟩
  | .varStrW chars enc => fun s =>
      if chars = 0 then
        let r := writeVarint s.data 0 s.offset
        .ok ⟨r.2, r.1⟩
      else
        let r := writeVarint s.data (enc.length : Int) s.offset
        .ok ⟨writeListB r.2 r.1 enc, r.1 + enc.length⟩
  | .nullStrW chars enc => fun s =>
      let s1 : SWState :=
        if chars = 0 then s
        else ⟨writeListB s.data s.offset enc, s.offset + enc.length⟩
      let r := writeU8 s1.data 0 s1.offset
      .ok ⟨r.2, r.1⟩
  | .hashB bs => fun s =>
      if bs.length = 32 then
        .ok ⟨writeListB s.data s.offset bs, s.offset + bs.length⟩
      else .error .assertionError
  | .hashS chars decoded => fun s =>
      if chars = 64 then
        .ok ⟨writeListB s.data s.offset decoded, s.offset + 32⟩
      else .error .assertionError
  | .fill v size => fun s =>
      if size = 0 then .ok s
      else
        .ok ⟨writeListB s.data s.offset (List.replicate size ((v % 256).toNat)),
          s.offset + size⟩
  | .copyW bs start stop => fun s =>
      let len := stop - start
      if len = 0 then .ok s
      else .ok ⟨writeListB s.data s.offset (sliceRange bs start stop), s.offset + len⟩
  | .chksum => fun s =>
      .ok ⟨writeListB s.data s.offset ((hash (s.data.take s.offset)).take 4),
        s.offset + 4⟩

/-- Arguments under which both writers support the operation (the
`StaticWriter` assertions on `writeHash` arguments). -/
def validWOp : WOp → Prop
  | .hashB bs => bs.length = 32
  | .hashS chars decoded => chars = 64 ∧ decoded.length = 32
  | _ => True

/-- Run a sequence of write operations on a fresh `SizeWriter`
(`this.offset` starts at 0). -/
def runSizeList (ops : List WOp) (off : Nat) : Nat :=
  ops.foldl (fun o op => runSize op o) off

/-- Run a sequence of write operations on a `StaticWriter`. -/
def runStaticList (hash : List Nat → List Nat) : List WOp → SWState → Except RErr SWState
  | [], s => .ok s
  | op :: rest, s => do
      let s1 ← runStatic hash op s
      runStaticList hash rest s1

/-- State of a `HashWriter` (`hashwriter.js`): the sequence of byte chunks
fed to the caller-supplied digest context via `this.ctx.update`. -/
structure HWState where
  updates : List (List Nat)
deriving DecidableEq, Repr

/-- hashwriter.js `writeChecksum()`: `throw new Error('Not available.')` —
the digest context is not touched. -/
def hwWriteChecksum (s : HWState) : Except (String × HWState) HWState :=
  .error ("Not available.", s)

/-- sizewriter.js `writeChecksum(hash)`: `this.offset += 4; return this` —
there is no throwing path; the result is embedded in the same
error-or-result shape as the other writers' `writeChecksum`. -/
def szWriteChecksum (off : Nat) : Except (String × Nat) Nat :=
  .ok (off + 4)

/-! ## Basic lemmas about the JS helpers and buffer primitives -/

@[simp] theorem exceptPureEq {ε α : Type} (a : α) : (pure a : Except ε α) = .ok a := rfl

@[simp] theorem exceptBindOk {ε α β : Type} (a : α) (f : α → Except ε β) :
    ((.ok a : Except ε α) >>= f) = f a := rfl

@[simp] theorem exceptBindErr {ε α β : Type} (e : ε) (f : α → Except ε β) :
    ((.error e : Except ε α) >>= f) = .error e := rfl

@[simp] theorem exceptMapOk {ε α β : Type} (f : α → β) (a : α) :
    (f <$> (.ok a : Except ε α)) = .ok (f a) := rfl

@[simp] theorem exceptMapErr {ε α β : Type} (f : α → β) (e : ε) :
    (f <$> (.error e : Except ε α)) = .error e := rfl

theorem and_255_eq_mod (n : Nat) : n &&& 255 = n % 256 := by
  have h := Nat.and_pow_two_sub_one_eq_mod n 8
  norm_num at h
  exact h

theorem and_127_eq_mod (n : Nat) : n &&& 127 = n % 128 := by
  have h := Nat.and_pow_two_sub_one_eq_mod n 7
  norm_num at h
  exact h

instance instDecEqExcept {ε α : Type} [DecidableEq ε] [DecidableEq α] :
    DecidableEq (Except ε α) := fun x y =>
  match x, y with
  | .ok a, .ok b =>
    match decEq a b with
    | isTrue h => isTrue (by rw [h])
    | isFalse h => isFalse (by intro hc; injection hc; contradiction)
  | .ok _, .error _ => isFalse (by intro hc; exact Except.noConfusion hc)
  | .error _, .ok _ => isFalse (by intro hc; exact Except.noConfusion hc)
  | .error e, .error f =>
    match decEq e f with
    | isTrue h => isTrue (by rw [h])
    | isFalse h => isFalse (by intro hc; injection hc; contradiction)

set_option maxHeartbeats 1000000 in
theorem and_128_eq_zero_iff (n : Nat) (h : n < 256) : n &&& 128 = 0 ↔ n < 128 := by
  interval_cases n <;> decide

theorem lor_mul_two_pow {k a : Nat} (b : Nat) (ha : a < 2 ^ k) :
    a ||| 2 ^ k * b = a + 2 ^ k * b := by
  refine Nat.eq_of_testBit_eq fun i => ?_
  rw [Nat.testBit_lor, Nat.add_comm a (2 ^ k * b),
    Nat.testBit_mul_pow_two_add b ha i, Nat.testBit_mul_pow_two]
  rcases Nat.lt_or_ge i k with h | h
  · simp [h, Nat.not_le_of_lt h]
  · have h2 : a.testBit i = false :=
      Nat.testBit_eq_false_of_lt (lt_of_lt_of_le ha (Nat.pow_le_pow_right (by norm_num) h))
    simp [h2, h, Nat.not_lt_of_le h]

theorem jsToUint32_ofNat (v : Nat) (h : v < 4294967296) : jsToUint32 (v : Int) = v := by
  simp only [jsToUint32]
  omega

theorem jsToInt32_ofNat_small (v : Nat) (h : v < 2147483648) : jsToInt32 (v : Int) = v := by
  simp only [jsToInt32]
  omega

theorem jsAndMask_ofNat (v m : Nat) (h : v < 4294967296) :
    jsAndMask (v : Int) m = v &&& m := by
  simp only [jsAndMask, jsToUint32_ofNat v h]

theorem jsShl_byte (b : Nat) (h : b < 256) : jsShl (b : Int) 8 = ((256 * b : Nat) : Int) := by
  have h1 : (b : Int) * 2 ^ 8 = ((256 * b : Nat) : Int) := by push_cast; ring
  simp only [jsShl, h1]
  exact jsToInt32_ofNat_small (256 * b) (by omega)

theorem jsOrI_bytes (b1 b2 : Nat) (h1 : b1 < 256) (h2 : b2 < 256) :
    jsOrI (b1 : Int) (jsShl (b2 : Int) 8) = ((b1 + 256 * b2 : Nat) : Int) := by
  rw [jsShl_byte b2 h2]
  have ha := jsToUint32_ofNat b1 (by omega)
  have hb := jsToUint32_ofNat (256 * b2) (by omega)
  have hor : b1 ||| 256 * b2 = b1 + 256 * b2 := by
    have := lor_mul_two_pow (k := 8) b2 h1
    norm_num at this
    exact this
  simp only [jsOrI, ha, hb, hor]
  exact jsToInt32_ofNat_small _ (by omega)

theorem length_setB (d : List Nat) (i : Nat) (v : Int) : (setB d i v).length = d.length := by
  simp [setB]

theorem length_writeListB (bytes : List Nat) (d : List Nat) (off : Nat) :
    (writeListB d off bytes).length = d.length := by
  induction bytes generalizing d off with
  | nil => rfl
  | cons b rest ih => simp [writeListB, ih, length_setB]

theorem getB_setB_self (d : List Nat) (i : Nat) (v : Int) (h : i < d.length) :
    getB (setB d i v) i = ((v % 256).toNat) := by
  simp [getB, setB, List.getD_eq_getElem?_getD, List.getElem?_set_self, h]

theorem getB_setB_ne (d : List Nat) (i j : Nat) (v : Int) (h : i ≠ j) :
    getB (setB d i v) j = getB d j := by
  simp [getB, setB, List.getD_eq_getElem?_getD, List.getElem?_set_ne h]

/-! ## Claim C1 -/

/-- Claim C1 (code bug): the width-dispatching signed little-endian
round-trip fails at width 4.  `writeI` with `len = 4` dispatches to the
24-bit writer `writeU24` (the `case 4` / `case 3` branches of its `switch`
are transposed), so it stores only three bytes and advances the offset by 3;
`readI` with `len = 4` then reads the stale fourth byte.  Concretely, on a
4-byte zero buffer, writing `-1` at width 4 and reading it back yields
`16777215`, not `-1`. -/
theorem C1_writeI_len4_breaks_roundtrip :
    writeI [0, 0, 0, 0] (-1) 0 4 = .ok (3, [255, 255, 255, 0]) ∧
    readI [255, 255, 255, 0] 0 4 = .ok 16777215 ∧
    (16777215 : Int) ≠ -1 := by
  refine ⟨by decide, by decide, by decide⟩

/-! ## Claim C2 -/

/-- Claim C2 (code bug): the signed 64-bit read does fail on a value whose
magnitude exceeds `2^53 - 1`, but the thrown `EncodingError` does not carry
the failing byte offset and message as claimed: `readI64` calls
`enforce(isSafe(hi, lo), 'Number exceeds 2^53-1')` with only two arguments,
so the error's offset field holds the message string and its reason is
`undefined`.  The unsigned `readU64` on the same bytes shows the intended
shape (offset `0`, reason the message). -/
theorem C2_readI64_error_lacks_offset :
    readI64 [0, 0, 0, 0, 0, 0, 0, 128] 0 =
      .error ⟨.str "Number exceeds 2^53-1", .undef⟩ ∧
    readU64 [0, 0, 0, 0, 0, 0, 0, 128] 0 =
      .error ⟨.num 0, .str "Number exceeds 2^53-1"⟩ ∧
    JsValue.str "Number exceeds 2^53-1" ≠ JsValue.num 0 := by
  refine ⟨by decide, by decide, by decide⟩

/-! ## Claim C7 -/

/-- Claim C7 (counterexample): `SizeWriter.writeChecksum` does not throw: on
a fresh size writer it returns normally with the byte count advanced by 4
(its body is `this.offset += 4; return this`). -/
theorem C7_sizewriter_writeChecksum_succeeds :
    szWriteChecksum 0 = .ok 4 := by
  decide

/-- Claim C7 (amended): `HashWriter.writeChecksum` always throws the
unsupported-operation error `Error('Not available.')` and leaves the digest
state unchanged; `SizeWriter.writeChecksum`, however, does not throw — it
returns normally, advancing the running byte count by exactly the 4 bytes a
checksum occupies. -/
theorem C7_writeChecksum_amended :
    (∀ s : HWState, hwWriteChecksum s = .error ("Not available.", s)) ∧
    (∀ off : Nat, szWriteChecksum off = .ok (off + 4)) :=
  ⟨fun _ => rfl, fun _ => rfl⟩

/-! ## Claim C4 -/

/-- Claim C4 (confirmed): each literal boundary vector of the bit-packed
varint format is exactly what `writeVarint2` emits (into a buffer of the
encoded size prefilled with `0xff`) and exactly what `readVarint2` decodes,
with the matching size: 0, 1, 127 as single bytes; 128, 255, 16383, 16384 as
the stated two-byte forms; `2^32` as the stated five-byte form. -/
theorem C4_varint2_boundary_vectors :
    (writeVarint2 (List.replicate 1 255) 0 0 = .ok (1, [0x00]) ∧
      readVarint2 [0x00] 0 = .ok (1, 0)) ∧
    (writeVarint2 (List.replicate 1 255) 1 0 = .ok (1, [0x01]) ∧
      readVarint2 [0x01] 0 = .ok (1, 1)) ∧
    (writeVarint2 (List.replicate 1 255) 127 0 = .ok (1, [0x7f]) ∧
      readVarint2 [0x7f] 0 = .ok (1, 127)) ∧
    (writeVarint2 (List.replicate 2 255) 128 0 = .ok (2, [0x80, 0x00]) ∧
      readVarint2 [0x80, 0x00] 0 = .ok (2, 128)) ∧
    (writeVarint2 (List.replicate 2 255) 255 0 = .ok (2, [0x80, 0x7f]) ∧
      readVarint2 [0x80, 0x7f] 0 = .ok (2, 255)) ∧
    (writeVarint2 (List.replicate 2 255) 16383 0 = .ok (2, [0xfe, 0x7f]) ∧
      readVarint2 [0xfe, 0x7f] 0 = .ok (2, 16383)) ∧
    (writeVarint2 (List.replicate 2 255) 16384 0 = .ok (2, [0xff, 0x00]) ∧
      readVarint2 [0xff, 0x00] 0 = .ok (2, 16384)) ∧
    (writeVarint2 (List.replicate 5 255) 4294967296 0 = .ok (5, [0x8e, 0xfe, 0xfe, 0xff, 0x00]) ∧
      readVarint2 [0x8e, 0xfe, 0xfe, 0xff, 0x00] 0 = .ok (5, 4294967296)) := by
  refine ⟨⟨?_, ?_⟩, ⟨?_, ?_⟩, ⟨?_, ?_⟩, ⟨?_, ?_⟩, ⟨?_, ?_⟩, ⟨?_, ?_⟩, ⟨?_, ?_⟩, ⟨?_, ?_⟩⟩ <;>
    simp [writeVarint2, v2tmp, writeListB, setB, jsAndMask, jsToUint32,
      readVarint2, rv2Loop, getB] <;>
    decide

/-! ## Claim C3: characterization of compact varint decoding -/

/-- The little-endian value of the `n` bytes at `off` (the format table's
payload value). -/
def natLE (data : List Nat) (off : Nat) : Nat → Nat
  | 0 => 0
  | n + 1 => getB data off + 256 * natLE data (off + 1) n

/-- The encoded size the format table assigns to a marker byte. -/
def compactSizeOf (m : Nat) : Nat :=
  if m = 0xff then 9 else if m = 0xfe then 5 else if m = 0xfd then 3 else 1

/-- The format table's value of the compact varint at `off`. -/
def compactValueAt (data : List Nat) (off : Nat) : Nat :=
  let m := getB data off
  if m = 0xff then natLE data (off + 1) 8
  else if m = 0xfe then natLE data (off + 1) 4
  else if m = 0xfd then natLE data (off + 1) 2
  else m

/-- The three non-canonical shapes of the claim: a 3-byte form whose value is
at most `0xfc`, a 5-byte form whose value is at most `0xffff`, or a 9-byte
form whose value is at most `0xffffffff`. -/
def nonCanonicalCompact (data : List Nat) (off : Nat) : Prop :=
  (getB data off = 0xfd ∧ compactValueAt data off ≤ 0xfc) ∨
  (getB data off = 0xfe ∧ compactValueAt data off ≤ 0xffff) ∨
  (getB data off = 0xff ∧ compactValueAt data off ≤ 0xffffffff)

instance (data : List Nat) (off : Nat) : Decidable (nonCanonicalCompact data off) := by
  unfold nonCanonicalCompact; infer_instance

theorem getB_lt_of_valid {data : List Nat} (hv : validBytes data) (i : Nat) :
    getB data i < 256 := by
  unfold getB
  rcases Nat.lt_or_ge i data.length with hi | hi
  · rw [List.getD_eq_getElem data 0 hi]
    exact hv _ (List.getElem_mem hi)
  · rw [List.getD_eq_default data 0 hi]
    norm_num

theorem natLE_lt {data : List Nat} (hv : validBytes data) (off n : Nat) :
    natLE data off n < 256 ^ n := by
  induction n generalizing off with
  | zero => simp [natLE]
  | succ n ih =>
      have hb := getB_lt_of_valid hv off
      have hL := ih (off + 1)
      calc getB data off + 256 * natLE data (off + 1) n
          < 256 + 256 * natLE data (off + 1) n := by omega
        _ ≤ 256 * 256 ^ n := by omega
        _ = 256 ^ (n + 1) := by rw [pow_succ]; ring

theorem natLE_split (data : List Nat) (off m n : Nat) :
    natLE data off (m + n) = natLE data off m + 256 ^ m * natLE data (off + m) n := by
  induction m generalizing off with
  | zero => simp [natLE]
  | succ m ih =>
      have h1 : m + 1 + n = (m + n) + 1 := by omega
      rw [h1,
        show natLE data off ((m + n) + 1)
          = getB data off + 256 * natLE data (off + 1) (m + n) from rfl,
        show natLE data off (m + 1)
          = getB data off + 256 * natLE data (off + 1) m from rfl,
        ih (off + 1)]
      have h2 : off + 1 + m = off + (m + 1) := by omega
      rw [h2, pow_succ]
      ring

theorem and_ffe00000_eq (h : Nat) (hh : h < 4294967296) :
    h &&& 4292870144 = 2 ^ 21 * (h / 2 ^ 21) := by
  refine Nat.eq_of_testBit_eq fun j => ?_
  rw [Nat.testBit_and,
    show (4292870144 : Nat) = 2 ^ 21 * (2 ^ 11 - 1) from by norm_num,
    Nat.testBit_mul_pow_two, Nat.testBit_mul_pow_two,
    Nat.testBit_two_pow_sub_one,
    ← Nat.shiftRight_eq_div_pow, Nat.testBit_shiftRight]
  by_cases hj : 21 ≤ j
  · have hj2 : 21 + (j - 21) = j := by omega
    rw [hj2]
    by_cases hj3 : j - 21 < 11
    · simp [hj, hj3]
    · have hj4 : 32 ≤ j := by omega
      have hle2 : (4294967296 : Nat) ≤ 2 ^ j := by
        calc (4294967296 : Nat) = 2 ^ 32 := by norm_num
          _ ≤ 2 ^ j := Nat.pow_le_pow_right (by norm_num) hj4
      have hfb : h.testBit j = false :=
        Nat.testBit_eq_false_of_lt (lt_of_lt_of_le hh hle2)
      simp [hj, hj3, hfb]
  · simp [hj]

theorem and_ffe00000_zero_iff (h : Nat) (hh : h < 4294967296) :
    (h &&& 4292870144 = 0) ↔ h < 2097152 := by
  rw [and_ffe00000_eq h hh]
  omega

theorem readU32_eq_natLE (data : List Nat) (off : Nat) :
    readU32 data off = ((natLE data off 4 : Nat) : Int) := by
  have h : natLE data off 4 =
      getB data off + 256 * (getB data (off + 1) + 256 * (getB data (off + 2) +
        256 * (getB data (off + 3) + 256 * 0))) := rfl
  rw [h]
  unfold readU32
  push_cast
  ring

theorem readU64_char (data : List Nat) (off : Nat) (hv : validBytes data) :
    readU64 data off =
      if natLE data off 8 ≤ 9007199254740991 then .ok ((natLE data off 8 : Nat) : Int)
      else .error ⟨.num off, .str "Number exceeds 2^53-1"⟩ := by
  unfold readU64
  rw [readU32_eq_natLE data (off + 4), readU32_eq_natLE data off]
  dsimp only
  have hHlt : natLE data (off + 4) 4 < 4294967296 := by
    have := natLE_lt hv (off + 4) 4
    norm_num at this
    exact this
  have hLlt : natLE data off 4 < 4294967296 := by
    have := natLE_lt hv off 4
    norm_num at this
    exact this
  have hsplit : natLE data off 8 = natLE data off 4 + 4294967296 * natLE data (off + 4) 4 := by
    have := natLE_split data off 4 4
    norm_num at this
    exact this
  rw [jsAndMask_ofNat _ _ hHlt]
  have hiff := and_ffe00000_zero_iff _ hHlt
  by_cases hc : natLE data (off + 4) 4 &&& 4292870144 = 0
  · have hcc : natLE data (off + 4) 4 < 2097152 := hiff.mp hc
    have hle : natLE data off 8 ≤ 9007199254740991 := by omega
    have hval : ((natLE data off 8 : Nat) : Int)
        = (natLE data (off + 4) 4 : Int) * 4294967296 + (natLE data off 4 : Int) := by
      rw [hsplit]; push_cast; ring
    simp [enforce, hc, hle, hval]
  · have hcc : ¬ natLE data (off + 4) 4 < 2097152 := fun hx => hc (hiff.mpr hx)
    have hgt : ¬ natLE data off 8 ≤ 9007199254740991 := by omega
    simp [enforce, hc, hgt]

/-! ## Claim C3 theorems -/

/-- Claim C3 (counterexample): the 9-byte input `[0xff,0,0,0,0,0,0,0,0xff]`
is in bounds and is none of the three non-canonical shapes (its table value
`0xff00000000000000` exceeds `0xffffffff`), yet `readVarint` does not decode
it: it throws the `EncodingError` "Number exceeds 2^53-1" (raised by the
inner `readU64` at offset 1), refuting the claim that every in-bounds input
outside the three non-canonical shapes decodes successfully. -/
theorem C3_overflowing_in_bounds_input_fails :
    readVarint [255, 0, 0, 0, 0, 0, 0, 0, 255] 0 =
      .error ⟨.num 1, .str "Number exceeds 2^53-1"⟩ ∧
    0 + compactSizeOf (getB [255, 0, 0, 0, 0, 0, 0, 0, 255] 0) ≤ 9 ∧
    ¬ nonCanonicalCompact [255, 0, 0, 0, 0, 0, 0, 0, 255] 0 := by
  refine ⟨by decide, by decide, by decide⟩

/-- Characterization of `readVarint` on well-formed in-bounds input: the
"Non-canonical varint" error on the three non-canonical shapes, the
"Number exceeds 2^53-1" error on an overflowing 9-byte form, and the table
value with the table size otherwise. -/
theorem readVarint_char (data : List Nat) (off : Nat)
    (hv : validBytes data)
    (hb : off + compactSizeOf (getB data off) ≤ data.length) :
    readVarint data off =
      if nonCanonicalCompact data off then
        .error ⟨.num off, .str "Non-canonical varint"⟩
      else if 9007199254740991 < compactValueAt data off then
        .error ⟨.num (off + 1), .str "Number exceeds 2^53-1"⟩
      else
        .ok (compactSizeOf (getB data off), ((compactValueAt data off : Nat) : Int)) := by
  have ho : off < data.length := by
    unfold compactSizeOf at hb
    split_ifs at hb <;> omega
  unfold readVarint
  simp only [check, ho]
  by_cases hff : getB data off = 255
  · have hb9 : off + 9 ≤ data.length := by
      unfold compactSizeOf at hb; rw [hff] at hb; norm_num at hb; omega
    rw [readU64_char data (off + 1) hv]
    have hval : compactValueAt data off = natLE data (off + 1) 8 := by
      unfold compactValueAt
      rw [hff]
      norm_num
    have hnciff : nonCanonicalCompact data off ↔ natLE data (off + 1) 8 ≤ 4294967295 := by
      unfold nonCanonicalCompact
      rw [hff, hval]
      norm_num
    have hcast : (((natLE data (off + 1) 8 : Nat) : Int) > 4294967295) ↔
        4294967295 < natLE data (off + 1) 8 := by
      constructor
      · intro h; exact_mod_cast h
      · intro h; exact_mod_cast h
    by_cases hm : natLE data (off + 1) 8 ≤ 9007199254740991
    · by_cases hc : natLE data (off + 1) 8 ≤ 4294967295
      · have hnc : nonCanonicalCompact data off := hnciff.mpr hc
        simp [hff, hb9, hm, hnc, enforce, hcast, compactSizeOf]
        have hlt : ¬ (4294967295 < natLE data (off + 1) 8) := by omega
        simp [hlt]
      · have hnc : ¬ nonCanonicalCompact data off := fun hx => hc (hnciff.mp hx)
        simp [hff, hb9, hm, hnc, enforce, hcast, compactSizeOf, hval]
        have hlt : 4294967295 < natLE data (off + 1) 8 := by omega
        have hms : ¬ (9007199254740991 < natLE data (off + 1) 8) := by omega
        simp [hlt, hms]
    · have hnc : ¬ nonCanonicalCompact data off := fun hx => by
        have := hnciff.mp hx
        omega
      have hover : 9007199254740991 < compactValueAt data off := by rw [hval]; omega
      simp [hff, hb9, hm, hnc, hover, enforce]
  · by_cases hfe : getB data off = 254
    · have hb5 : off + 5 ≤ data.length := by
        unfold compactSizeOf at hb; rw [hfe] at hb; norm_num at hb; omega
      rw [readU32_eq_natLE data (off + 1)]
      have hval : compactValueAt data off = natLE data (off + 1) 4 := by
        unfold compactValueAt
        rw [hfe]
        norm_num
      have hnciff : nonCanonicalCompact data off ↔ natLE data (off + 1) 4 ≤ 65535 := by
        unfold nonCanonicalCompact
        rw [hfe, hval]
        norm_num
      have hcast : (((natLE data (off + 1) 4 : Nat) : Int) > 65535) ↔
          65535 < natLE data (off + 1) 4 := by
        constructor
        · intro h; exact_mod_cast h
        · intro h; exact_mod_cast h
      have hsmall : natLE data (off + 1) 4 < 4294967296 := by
        have := natLE_lt hv (off + 1) 4
        norm_num at this
        exact this
      have hover : ¬ (9007199254740991 < compactValueAt data off) := by
        rw [hval]; omega
      by_cases hc : natLE data (off + 1) 4 ≤ 65535
      · have hnc : nonCanonicalCompact data off := hnciff.mpr hc
        have hlt : ¬ (65535 < natLE data (off + 1) 4) := by omega
        simp [hff, hfe, hb5, hnc, enforce, hcast, hlt]
      · have hnc : ¬ nonCanonicalCompact data off := fun hx => hc (hnciff.mp hx)
        have hlt : 65535 < natLE data (off + 1) 4 := by omega
        have hms : ¬ (9007199254740991 < natLE data (off + 1) 4) := by omega
        simp [hff, hfe, hb5, hnc, hover, enforce, hcast, hlt, hms, compactSizeOf, hval]
    · by_cases hfd : getB data off = 253
      · have hb3 : off + 3 ≤ data.length := by
          unfold compactSizeOf at hb; rw [hfd] at hb; norm_num at hb; omega
        have hb1 := getB_lt_of_valid hv (off + 1)
        have hb2 := getB_lt_of_valid hv (off + 2)
        rw [jsOrI_bytes _ _ hb1 hb2]
        have hn2 : natLE data (off + 1) 2 = getB data (off + 1) + 256 * getB data (off + 2) := by
          show getB data (off + 1) + 256 * (getB data (off + 2) + 256 * natLE data (off + 3) 0) = _
          simp [natLE]
        have hval : compactValueAt data off = natLE data (off + 1) 2 := by
          unfold compactValueAt
          rw [hfd]
          norm_num
        have hnciff : nonCanonicalCompact data off ↔ natLE data (off + 1) 2 ≤ 252 := by
          unfold nonCanonicalCompact
          rw [hfd, hval]
          norm_num
        have hcast : ((253 : Int) ≤ (getB data (off + 1) : Int) + 256 * (getB data (off + 2) : Int)) ↔
            253 ≤ natLE data (off + 1) 2 := by
          rw [hn2]
          omega
        have hover : ¬ (9007199254740991 < compactValueAt data off) := by
          rw [hval, hn2]; omega
        by_cases hc : natLE data (off + 1) 2 ≤ 252
        · have hnc : nonCanonicalCompact data off := hnciff.mpr hc
          have hlt : ¬ (253 ≤ natLE data (off + 1) 2) := by omega
          simp [hff, hfe, hfd, hb3, hnc, enforce, hcast, hlt]
        · have hnc : ¬ nonCanonicalCompact data off := fun hx => hc (hnciff.mp hx)
          have hlt : 253 ≤ natLE data (off + 1) 2 := by omega
          have h1 : 253 ≤ getB data (off + 1) + 256 * getB data (off + 2) := by omega
          have h2 : ¬ (9007199254740991 < getB data (off + 1) + 256 * getB data (off + 2)) := by
            omega
          simp [hff, hfe, hfd, hb3, hnc, hover, enforce, hcast, hlt, h1, h2,
            compactSizeOf, hval, hn2]
      · have hm := getB_lt_of_valid hv off
        have hval : compactValueAt data off = getB data off := by
          unfold compactValueAt
          simp [hff, hfe, hfd]
        have hnc : ¬ nonCanonicalCompact data off := by
          unfold nonCanonicalCompact
          simp [hff, hfe, hfd]
        have hover : ¬ (9007199254740991 < compactValueAt data off) := by
          rw [hval]; omega
        have h2 : ¬ (9007199254740991 < getB data off) := by omega
        simp [hff, hfe, hfd, hnc, hover, h2, compactSizeOf, hval]


/-- Claim C3 (amended): for every well-formed in-bounds input, `readVarint`
throws "Non-canonical varint" (tagged with the marker offset) exactly on the
three non-canonical shapes of the table; of the remaining inputs, a 9-byte
form whose table value exceeds `2^53 - 1` throws "Number exceeds 2^53-1"
(tagged with the payload offset), and every other input decodes successfully
to its table value with the table size. -/
theorem C3_readVarint_characterization (data : List Nat) (off : Nat)
    (hv : validBytes data)
    (hb : off + compactSizeOf (getB data off) ≤ data.length) :
    readVarint data off =
      if nonCanonicalCompact data off then
        .error ⟨.num off, .str "Non-canonical varint"⟩
      else if 9007199254740991 < compactValueAt data off then
        .error ⟨.num (off + 1), .str "Number exceeds 2^53-1"⟩
      else
        .ok (compactSizeOf (getB data off), ((compactValueAt data off : Nat) : Int)) :=
  readVarint_char data off hv hb

/-- Witness for the amended claim C3: decoding `[0xfd, 0x34, 0x12]` through
the characterization yields the table value `0x1234` with size 3. -/
theorem C3_readVarint_characterization_witness :
    readVarint [253, 52, 18] 0 = .ok (3, 4660) := by
  have h := C3_readVarint_characterization [253, 52, 18] 0 (by decide) (by decide)
  exact h.trans (by decide)

/-! ## Claim C9: toolbox for byte-level write characterizations -/

theorem setB_ofNat (d : List Nat) (i a : Nat) : setB d i (a : Int) = d.set i (a % 256) := by
  have h : (((a : Int)) % 256).toNat = a % 256 := by omega
  unfold setB
  rw [h]

/-- The little-endian value of a byte list. -/
def natLEList : List Nat → Nat
  | [] => 0
  | b :: rest => b + 256 * natLEList rest

theorem natLE_eq_extract (data : List Nat) (off n : Nat) :
    natLE data off n = natLEList (extract data off n) := by
  induction n generalizing off with
  | zero => rfl
  | succ n ih => simp [natLE, extract, natLEList, ih]

theorem length_leBytesN (n v : Nat) : (leBytesN n v).length = n := by
  induction n generalizing v with
  | zero => rfl
  | succ n ih => simp [leBytesN, ih]

theorem leBytesN_lt (n v : Nat) : ∀ b ∈ leBytesN n v, b < 256 := by
  induction n generalizing v with
  | zero => simp [leBytesN]
  | succ n ih =>
      intro b hb
      simp only [leBytesN, List.mem_cons] at hb
      rcases hb with hb | hb
      · omega
      · exact ih (v / 256) b hb

theorem natLEList_leBytesN (n v : Nat) (h : v < 256 ^ n) :
    natLEList (leBytesN n v) = v := by
  induction n generalizing v with
  | zero =>
      simp only [leBytesN, natLEList]
      omega
  | succ n ih =>
      have hp : (256 : Nat) ^ (n + 1) = 256 * 256 ^ n := by rw [pow_succ]; ring
      have hdiv : v / 256 < 256 ^ n := by omega
      simp [leBytesN, natLEList, ih (v / 256) hdiv]
      omega

theorem writeListB_append (bs1 bs2 : List Nat) (d : List Nat) (off : Nat) :
    writeListB d off (bs1 ++ bs2) =
      writeListB (writeListB d off bs1) (off + bs1.length) bs2 := by
  induction bs1 generalizing d off with
  | nil => simp [writeListB]
  | cons b rest ih =>
      show writeListB (setB d off (b : Int)) (off + 1) (rest ++ bs2)
        = writeListB (writeListB (setB d off (b : Int)) (off + 1) rest)
            (off + (b :: rest).length) bs2
      rw [ih (setB d off (b : Int)) (off + 1), List.length_cons,
        show off + (rest.length + 1) = off + 1 + rest.length from by omega]

theorem getB_writeListB_lt (bytes : List Nat) (d : List Nat) (off j : Nat) (hj : j < off) :
    getB (writeListB d off bytes) j = getB d j := by
  induction bytes generalizing d off with
  | nil => rfl
  | cons b rest ih =>
      simp only [writeListB]
      rw [ih (setB d off (b : Int)) (off + 1) (by omega)]
      exact getB_setB_ne d off j (b : Int) (by omega)

theorem extract_writeListB (bytes : List Nat) (d : List Nat) (off : Nat)
    (h : off + bytes.length ≤ d.length) (hby : ∀ b ∈ bytes, b < 256) :
    extract (writeListB d off bytes) off bytes.length = bytes := by
  induction bytes generalizing d off with
  | nil => rfl
  | cons b rest ih =>
      have hlen : (setB d off (b : Int)).length = d.length := length_setB d off (b : Int)
      have hL : off + (rest.length + 1) ≤ d.length := by simpa using h
      show getB (writeListB (setB d off (b : Int)) (off + 1) rest) off ::
          extract (writeListB (setB d off (b : Int)) (off + 1) rest) (off + 1) rest.length
        = b :: rest
      have h1 : getB (writeListB (setB d off (b : Int)) (off + 1) rest) off = b := by
        rw [getB_writeListB_lt rest (setB d off (b : Int)) (off + 1) off (by omega),
          getB_setB_self d off (b : Int) (by omega)]
        have hb : b < 256 := hby b (by simp)
        omega
      have h2 : extract (writeListB (setB d off (b : Int)) (off + 1) rest)
          (off + 1) rest.length = rest :=
        ih (setB d off (b : Int)) (off + 1) (by omega)
          (fun x hx => hby x (by simp [hx]))
      rw [h1, h2]

theorem validBytes_setB (d : List Nat) (i : Nat) (v : Int) (h : validBytes d) :
    validBytes (setB d i v) := by
  intro b hb
  unfold setB at hb
  rcases List.mem_or_eq_of_mem_set hb with hb2 | hb2
  · exact h b hb2
  · omega

theorem validBytes_writeListB (bytes : List Nat) (d : List Nat) (off : Nat)
    (h : validBytes d) : validBytes (writeListB d off bytes) := by
  induction bytes generalizing d off with
  | nil => exact h
  | cons b rest ih => exact ih (setB d off (b : Int)) (off + 1) (validBytes_setB d off _ h)

theorem jsToUint32_lt (x : Int) : jsToUint32 x < 4294967296 := by
  unfold jsToUint32
  omega

theorem jsShrU_ofNat (u : Nat) (h : u < 4294967296) (k : Nat) :
    jsShrU (u : Int) k = ((u >>> k : Nat) : Int) := by
  unfold jsShrU
  rw [jsToUint32_ofNat u h]

theorem writeU32_bytes (d : List Nat) (x : Int) (off : Nat) :
    writeU32 d x off = (off + 4, writeListB d off (leBytesN 4 (jsToUint32 x))) := by
  have hult : jsToUint32 x < 4294967296 := jsToUint32_lt x
  have h0 : setB d off x = d.set off (jsToUint32 x % 256) := by
    unfold setB
    have : ((x % 256).toNat) = jsToUint32 x % 256 := by unfold jsToUint32; omega
    rw [this]
  have h1 : jsShrU x 8 = ((jsToUint32 x >>> 8 : Nat) : Int) := rfl
  have h8 : jsToUint32 x >>> 8 = jsToUint32 x / 256 := by
    rw [Nat.shiftRight_eq_div_pow]
  have h2 : jsShrU ((jsToUint32 x / 256 : Nat) : Int) 8 = (((jsToUint32 x / 256) >>> 8 : Nat) : Int) :=
    jsShrU_ofNat _ (by omega) 8
  have h9 : (jsToUint32 x / 256) >>> 8 = jsToUint32 x / 256 / 256 := by
    rw [Nat.shiftRight_eq_div_pow]
  have h3 : jsShrU ((jsToUint32 x / 256 / 256 : Nat) : Int) 8
      = (((jsToUint32 x / 256 / 256) >>> 8 : Nat) : Int) :=
    jsShrU_ofNat _ (by omega) 8
  have h10 : (jsToUint32 x / 256 / 256) >>> 8 = jsToUint32 x / 256 / 256 / 256 := by
    rw [Nat.shiftRight_eq_div_pow]
  have hmm : ∀ a : Nat, a % 256 % 256 = a % 256 := fun a => by omega
  unfold writeU32
  dsimp only
  rw [h1, h8, h2, h9, h3, h10, h0]
  simp only [writeListB, leBytesN, setB_ofNat, hmm]


theorem jsToUint32_jsToInt32 (x : Int) : jsToUint32 (jsToInt32 x) = jsToUint32 x := by
  unfold jsToUint32 jsToInt32
  dsimp only
  split_ifs <;> omega

theorem jsToUint32_ofNat_mod (v : Nat) : jsToUint32 (v : Int) = v % 4294967296 := by
  unfold jsToUint32
  omega

theorem leBytesN_split44 (v : Nat) :
    leBytesN 8 v = leBytesN 4 (v % 4294967296) ++ leBytesN 4 (v / 4294967296) := by
  simp only [leBytesN, List.cons_append, List.nil_append, List.cons.injEq, and_true]
  refine ⟨by omega, by omega, by omega, by omega, by omega, by omega, by omega, by omega⟩

theorem write64_bytes_nonneg (d : List Nat) (v : Nat) (off : Nat)
    (hv : v ≤ 9007199254740991) :
    write64 d (v : Int) off false = (off + 8, writeListB d off (leBytesN 8 v)) := by
  have hneg : ¬ ((v : Int) < 0) := by omega
  have hdd : ((v : Int) / 4294967296) = ((v / 4294967296 : Nat) : Int) := by
    omega
  have hsm : jsToInt32 ((v / 4294967296 : Nat) : Int) = ((v / 4294967296 : Nat) : Int) :=
    jsToInt32_ofNat_small _ (by omega)
  unfold write64
  dsimp only
  rw [if_neg hneg, if_neg hneg, if_neg hneg]
  simp only [Bool.false_eq_true, if_false]
  unfold writeI32
  rw [writeU32_bytes d (jsToInt32 (v : Int)) off]
  dsimp only
  rw [jsToUint32_jsToInt32, jsToUint32_ofNat_mod, hdd, hsm,
    writeU32_bytes _ ((v / 4294967296 : Nat) : Int) (off + 4),
    jsToUint32_ofNat_mod,
    show v / 4294967296 % 4294967296 = v / 4294967296 from by omega,
    leBytesN_split44 v, writeListB_append, length_leBytesN,
    show off + 4 + 4 = off + 8 from by omega]

theorem jsShrS_and255 (v : Nat) (hv : v < 4294967296) (k : Nat) (hk : k = 8 ∨ k = 16) :
    jsAndMask (jsShrS (v : Int) k) 255 = v / 2 ^ k % 256 := by
  have hf : ∀ y : Int, Int.fdiv y ((2 : Int) ^ k) = y / 2 ^ k := by
    intro y
    exact Int.fdiv_eq_ediv y (by positivity)
  unfold jsAndMask jsShrS jsToUint32 jsToInt32
  dsimp only
  rw [hf, and_255_eq_mod]
  rcases hk with hk | hk <;> subst hk <;> split_ifs <;> norm_num <;> omega


/-- The minimal-length compact encoding of the claim's table: 1 byte below
0xfd; marker 0xfd plus 2-byte little-endian; marker 0xfe plus 4-byte
little-endian; marker 0xff plus 8-byte little-endian. -/
def specCompactEncoding (v : Nat) : List Nat :=
  if v < 253 then [v]
  else if v ≤ 65535 then 253 :: leBytesN 2 v
  else if v ≤ 4294967295 then 254 :: leBytesN 4 v
  else 255 :: leBytesN 8 v

theorem writeVarint_eq (dst : List Nat) (v off : Nat) (hv : v ≤ 9007199254740991) :
    writeVarint dst (v : Int) off
      = (off + sizeVarint (v : Int), writeListB dst off (specCompactEncoding v)) := by
  have hmm2 : ∀ a : Nat, a % 256 % 256 = a % 256 := fun a => by omega
  have hlit : ∀ (d : List Nat) (i : Nat) (c : Nat), c < 256 →
      setB d i ((c : Nat) : Int) = d.set i c := by
    intro d i c hc
    rw [setB_ofNat]
    congr 1
    omega
  have h253 : ∀ (d : List Nat) (i : Nat), setB d i (253 : Int) = d.set i 253 :=
    fun d i => rfl
  have h254 : ∀ (d : List Nat) (i : Nat), setB d i (254 : Int) = d.set i 254 :=
    fun d i => rfl
  have h255 : ∀ (d : List Nat) (i : Nat), setB d i (255 : Int) = d.set i 255 :=
    fun d i => rfl
  have ho2 : off + 1 + 1 = off + 2 := by omega
  have ho3 : off + 1 + 1 + 1 = off + 3 := by omega
  have ho4 : off + 1 + 1 + 1 + 1 = off + 4 := by omega
  unfold writeVarint sizeVarint specCompactEncoding
  by_cases h1 : v < 253
  · have h1i : ((v : Int) < 253) := by omega
    have hA : jsAndMask (v : Int) 255 = v % 256 := by
      rw [jsAndMask_ofNat v 255 (by omega), and_255_eq_mod]
    simp only [if_pos h1i, if_pos h1, hA, writeListB, setB_ofNat]
    rw [show v % 256 % 256 = v % 256 from by omega, show v % 256 = v from by omega]
  · have h1i : ¬ ((v : Int) < 253) := by omega
    by_cases h2 : v ≤ 65535
    · have h2i : ((v : Int) ≤ 65535) := by omega
      have hA : jsAndMask (v : Int) 255 = v % 256 := by
        rw [jsAndMask_ofNat v 255 (by omega), and_255_eq_mod]
      have hB : jsAndMask (jsShrS (v : Int) 8) 255 = v / 256 % 256 := by
        have h := jsShrS_and255 v (by omega) 8 (Or.inl rfl)
        norm_num at h
        exact h
      simp only [if_neg h1i, if_pos h2i, if_neg h1, if_pos h2, hA, hB,
        writeListB, leBytesN, setB_ofNat, hmm2, h253, ho2]
    · have h2i : ¬ ((v : Int) ≤ 65535) := by omega
      by_cases h3 : v ≤ 4294967295
      · have h3i : ((v : Int) ≤ 4294967295) := by omega
        have hA : jsAndMask (v : Int) 255 = v % 256 := by
          rw [jsAndMask_ofNat v 255 (by omega), and_255_eq_mod]
        have hB : jsAndMask (jsShrS (v : Int) 8) 255 = v / 256 % 256 := by
          have h := jsShrS_and255 v (by omega) 8 (Or.inl rfl)
          norm_num at h
          exact h
        have hC : jsAndMask (jsShrS (v : Int) 16) 255 = v / 65536 % 256 := by
          have h := jsShrS_and255 v (by omega) 16 (Or.inr rfl)
          norm_num at h
          exact h
        have hD : jsShrU (v : Int) 24 = ((v / 16777216 : Nat) : Int) := by
          rw [show jsShrU (v : Int) 24 = ((jsToUint32 (v : Int) >>> 24 : Nat) : Int) from rfl,
            jsToUint32_ofNat v (by omega), Nat.shiftRight_eq_div_pow]
        simp only [if_neg h1i, if_neg h2i, if_pos h3i, if_neg h1, if_neg h2, if_pos h3,
          hA, hB, hC, hD, writeListB, leBytesN, setB_ofNat, hmm2, h254, ho2, ho3, ho4]
        norm_num [Nat.div_div_eq_div_mul]
      · have h3i : ¬ ((v : Int) ≤ 4294967295) := by omega
        simp only [if_neg h1i, if_neg h2i, if_neg h3i, if_neg h1, if_neg h2, if_neg h3]
        unfold writeU64
        rw [write64_bytes_nonneg _ v (off + 1) hv, h255]
        simp only [writeListB]
        norm_num [Nat.div_div_eq_div_mul]
        simp only [h255]


theorem specCompactEncoding_length (v : Nat) :
    (specCompactEncoding v).length = sizeVarint (v : Int) := by
  unfold specCompactEncoding sizeVarint
  by_cases h1 : v < 253
  · rw [if_pos h1, if_pos (show ((v : Int) < 253) from by omega)]
    rfl
  · rw [if_neg h1, if_neg (show ¬ ((v : Int) < 253) from by omega)]
    by_cases h2 : v ≤ 65535
    · rw [if_pos h2, if_pos (show ((v : Int) ≤ 65535) from by omega)]
      simp [length_leBytesN]
    · rw [if_neg h2, if_neg (show ¬ ((v : Int) ≤ 65535) from by omega)]
      by_cases h3 : v ≤ 4294967295
      · rw [if_pos h3, if_pos (show ((v : Int) ≤ 4294967295) from by omega)]
        simp [length_leBytesN]
      · rw [if_neg h3, if_neg (show ¬ ((v : Int) ≤ 4294967295) from by omega)]
        simp [length_leBytesN]

theorem specCompactEncoding_bytes (v : Nat) : ∀ b ∈ specCompactEncoding v, b < 256 := by
  unfold specCompactEncoding
  split_ifs with h1 h2 h3 <;> intro b hb <;> simp only [List.mem_cons, List.mem_singleton] at hb
  · simp at hb
    omega
  · rcases hb with hb | hb
    · omega
    · exact leBytesN_lt 2 v b hb
  · rcases hb with hb | hb
    · omega
    · exact leBytesN_lt 4 v b hb
  · rcases hb with hb | hb
    · omega
    · exact leBytesN_lt 8 v b hb


theorem readVarint_of_spec (dst : List Nat) (v off : Nat)
    (hdst : validBytes dst) (hv : v ≤ 9007199254740991)
    (hb : off + sizeVarint (v : Int) ≤ dst.length) :
    readVarint (writeListB dst off (specCompactEncoding v)) off
      = .ok (sizeVarint (v : Int), (v : Int)) := by
  set W := writeListB dst off (specCompactEncoding v) with hW
  have hVB : validBytes W := validBytes_writeListB _ dst off hdst
  have hWlen : W.length = dst.length := length_writeListB _ dst off
  have hlen := specCompactEncoding_length v
  have hex : extract W off (sizeVarint (v : Int)) = specCompactEncoding v := by
    rw [← hlen]
    exact extract_writeListB _ dst off (by rw [hlen]; exact hb) (specCompactEncoding_bytes v)
  by_cases h1 : v < 253
  · have hsz : sizeVarint (v : Int) = 1 := by
      unfold sizeVarint
      rw [if_pos (show ((v : Int) < 253) from by omega)]
    have hspec : specCompactEncoding v = [v] := by
      unfold specCompactEncoding
      rw [if_pos h1]
    have hhead : getB W off = v := by
      have h := hex
      rw [hsz, hspec] at h
      simpa [extract] using h
    have hbnd : off + compactSizeOf (getB W off) ≤ W.length := by
      unfold compactSizeOf
      rw [hhead]
      rw [if_neg (by omega), if_neg (by omega), if_neg (by omega)]
      omega
    rw [readVarint_char W off hVB hbnd]
    have hval : compactValueAt W off = v := by
      unfold compactValueAt
      rw [hhead, if_neg (by omega), if_neg (by omega), if_neg (by omega)]
    have hnc : ¬ nonCanonicalCompact W off := by
      unfold nonCanonicalCompact
      rw [hhead]
      push_neg
      refine ⟨fun h => absurd h (by omega), fun h => absurd h (by omega),
        fun h => absurd h (by omega)⟩
    have hover : ¬ (9007199254740991 < compactValueAt W off) := by rw [hval]; omega
    rw [if_neg hnc, if_neg hover, hval, hsz]
    unfold compactSizeOf
    rw [hhead, if_neg (by omega), if_neg (by omega), if_neg (by omega)]
  · by_cases h2 : v ≤ 65535
    · have hsz : sizeVarint (v : Int) = 3 := by
        unfold sizeVarint
        rw [if_neg (show ¬ ((v : Int) < 253) from by omega),
          if_pos (show ((v : Int) ≤ 65535) from by omega)]
      have hspec : specCompactEncoding v = 253 :: leBytesN 2 v := by
        unfold specCompactEncoding
        rw [if_neg h1, if_pos h2]
      have hcons : getB W off :: extract W (off + 1) 2 = 253 :: leBytesN 2 v := by
        have h := hex
        rw [hsz, hspec] at h
        exact h
      have hinj : getB W off = 253 ∧ extract W (off + 1) 2 = leBytesN 2 v :=
        List.cons.injEq (getB W off) (extract W (off + 1) 2) 253 (leBytesN 2 v) ▸ hcons
      have hhead := hinj.1
      have hval2 : natLE W (off + 1) 2 = v := by
        rw [natLE_eq_extract, hinj.2, natLEList_leBytesN 2 v (by norm_num; omega)]
      have hbnd : off + compactSizeOf (getB W off) ≤ W.length := by
        unfold compactSizeOf
        rw [hhead]
        norm_num
        omega
      rw [readVarint_char W off hVB hbnd]
      have hval : compactValueAt W off = v := by
        unfold compactValueAt
        rw [hhead]
        norm_num
        exact hval2
      have hnc : ¬ nonCanonicalCompact W off := by
        unfold nonCanonicalCompact
        rw [hhead, hval]
        push_neg
        refine ⟨fun h => by omega, fun h => absurd h (by omega),
          fun h => absurd h (by omega)⟩
      have hover : ¬ (9007199254740991 < compactValueAt W off) := by rw [hval]; omega
      rw [if_neg hnc, if_neg hover, hval, hsz]
      unfold compactSizeOf
      rw [hhead]
      norm_num
    · by_cases h3 : v ≤ 4294967295
      · have hsz : sizeVarint (v : Int) = 5 := by
          unfold sizeVarint
          rw [if_neg (show ¬ ((v : Int) < 253) from by omega),
            if_neg (show ¬ ((v : Int) ≤ 65535) from by omega),
            if_pos (show ((v : Int) ≤ 4294967295) from by omega)]
        have hspec : specCompactEncoding v = 254 :: leBytesN 4 v := by
          unfold specCompactEncoding
          rw [if_neg h1, if_neg h2, if_pos h3]
        have hcons : getB W off :: extract W (off + 1) 4 = 254 :: leBytesN 4 v := by
          have h := hex
          rw [hsz, hspec] at h
          exact h
        have hinj : getB W off = 254 ∧ extract W (off + 1) 4 = leBytesN 4 v :=
          List.cons.injEq (getB W off) (extract W (off + 1) 4) 254 (leBytesN 4 v) ▸ hcons
        have hhead := hinj.1
        have hval2 : natLE W (off + 1) 4 = v := by
          rw [natLE_eq_extract, hinj.2, natLEList_leBytesN 4 v (by norm_num; omega)]
        have hbnd : off + compactSizeOf (getB W off) ≤ W.length := by
          unfold compactSizeOf
          rw [hhead]
          norm_num
          omega
        rw [readVarint_char W off hVB hbnd]
        have hval : compactValueAt W off = v := by
          unfold compactValueAt
          rw [hhead]
          norm_num
          exact hval2
        have hnc : ¬ nonCanonicalCompact W off := by
          unfold nonCanonicalCompact
          rw [hhead, hval]
          push_neg
          refine ⟨fun h => absurd h (by omega), fun h => by omega,
            fun h => absurd h (by omega)⟩
        have hover : ¬ (9007199254740991 < compactValueAt W off) := by rw [hval]; omega
        rw [if_neg hnc, if_neg hover, hval, hsz]
        unfold compactSizeOf
        rw [hhead]
        norm_num
      · have hsz : sizeVarint (v : Int) = 9 := by
          unfold sizeVarint
          rw [if_neg (show ¬ ((v : Int) < 253) from by omega),
            if_neg (show ¬ ((v : Int) ≤ 65535) from by omega),
            if_neg (show ¬ ((v : Int) ≤ 4294967295) from by omega)]
        have hspec : specCompactEncoding v = 255 :: leBytesN 8 v := by
          unfold specCompactEncoding
          rw [if_neg h1, if_neg h2, if_neg h3]
        have hcons : getB W off :: extract W (off + 1) 8 = 255 :: leBytesN 8 v := by
          have h := hex
          rw [hsz, hspec] at h
          exact h
        have hinj : getB W off = 255 ∧ extract W (off + 1) 8 = leBytesN 8 v :=
          List.cons.injEq (getB W off) (extract W (off + 1) 8) 255 (leBytesN 8 v) ▸ hcons
        have hhead := hinj.1
        have hval2 : natLE W (off + 1) 8 = v := by
          rw [natLE_eq_extract, hinj.2, natLEList_leBytesN 8 v (by norm_num; omega)]
        have hbnd : off + compactSizeOf (getB W off) ≤ W.length := by
          unfold compactSizeOf
          rw [hhead]
          norm_num
          omega
        rw [readVarint_char W off hVB hbnd]
        have hval : compactValueAt W off = v := by
          unfold compactValueAt
          rw [hhead]
          norm_num
          exact hval2
        have hnc : ¬ nonCanonicalCompact W off := by
          unfold nonCanonicalCompact
          rw [hhead, hval]
          push_neg
          refine ⟨fun h => absurd h (by omega), fun h => absurd h (by omega),
            fun h => by omega⟩
        have hover : ¬ (9007199254740991 < compactValueAt W off) := by rw [hval]; omega
        rw [if_neg hnc, if_neg hover, hval, hsz]
        unfold compactSizeOf
        rw [hhead]
        norm_num


/-! ## Claim C9 theorems -/

/-- Claim C9 (confirmed): for every well-formed buffer with room at the
write offset and every value within `2^53 - 1`, `writeVarint` advances the
offset by `sizeVarint`, the bytes it emits are exactly the minimal-length
compact encoding of the format table (whose length `sizeVarint` reports),
and `readVarint` decodes the emitted bytes back to the value with that
size. -/
theorem C9_writeVarint_minimal_encoding (dst : List Nat) (v off : Nat)
    (hdst : validBytes dst) (hv : v ≤ 9007199254740991)
    (hb : off + sizeVarint (v : Int) ≤ dst.length) :
    (writeVarint dst (v : Int) off).1 = off + sizeVarint (v : Int) ∧
    (specCompactEncoding v).length = sizeVarint (v : Int) ∧
    extract (writeVarint dst (v : Int) off).2 off (sizeVarint (v : Int))
      = specCompactEncoding v ∧
    readVarint (writeVarint dst (v : Int) off).2 off
      = .ok (sizeVarint (v : Int), (v : Int)) := by
  have hw := writeVarint_eq dst v off hv
  refine ⟨by rw [hw], specCompactEncoding_length v, ?_, ?_⟩
  · rw [hw, ← specCompactEncoding_length v]
    exact extract_writeListB _ dst off
      (by rw [specCompactEncoding_length v]; exact hb) (specCompactEncoding_bytes v)
  · rw [hw]
    exact readVarint_of_spec dst v off hdst hv hb

/-- Witness for claim C9: writing 300 into a fresh 9-byte buffer emits
`[0xfd, 0x2c, 0x01]` (the table's 3-byte form) and reads back as 300. -/
theorem C9_writeVarint_minimal_encoding_witness :
    extract (writeVarint (List.replicate 9 0) 300 0).2 0 (sizeVarint 300)
      = specCompactEncoding 300 ∧
    readVarint (writeVarint (List.replicate 9 0) 300 0).2 0
      = .ok (sizeVarint 300, 300) := by
  have h := C9_writeVarint_minimal_encoding (List.replicate 9 0) 300 0
    (by decide) (by decide) (by decide)
  exact ⟨h.2.2.1, h.2.2.2⟩

/-! ## Claim C5 development: canonicity of the bit-packed varint -/

/-- Bridge from the cursor loop of `readVarint2` to its structural companion
`rv2Core`: a successful run of the loop at `off` is a successful `rv2Core`
run on the suffix `data.drop off`, with the returned size shifted by the
entry size. -/
theorem rv2Loop_ok (data : List Nat) (off num size sz v : Nat)
    (h : rv2Loop data off num size = Except.ok (sz, v)) :
    ∃ s, rv2Core num (List.drop off data) = some (s, v) ∧ sz = size + s := by
  rw [rv2Loop] at h
  by_cases hoff : off < data.length
  · rw [if_pos hoff] at h
    dsimp only at h
    have hdrop : List.drop off data = getB data off :: List.drop (off + 1) data := by
      rw [List.drop_eq_getElem_cons hoff]
      congr 1
      simp [getB, List.getD_eq_getElem?_getD, List.getElem?_eq_getElem hoff]
    rw [hdrop, rv2Core]
    dsimp only
    by_cases hg : num ≤ 0x3fffffffffff - (getB data off &&& 127)
    · rw [if_pos hg] at h ⊢
      by_cases hbit : getB data off &&& 128 = 0
      · rw [if_pos hbit] at h ⊢
        simp only [Except.ok.injEq, Prod.mk.injEq] at h
        exact ⟨1, by rw [h.2], by omega⟩
      · rw [if_neg hbit] at h ⊢
        by_cases hmsi : num * 128 + (getB data off &&& 127) = 9007199254740991
        · rw [if_pos hmsi] at h; exact absurd h (by simp)
        · rw [if_neg hmsi] at h ⊢
          obtain ⟨s, hs, hsz⟩ := rv2Loop_ok data (off + 1) _ (size + 1) sz v h
          exact ⟨s + 1, by rw [hs], by omega⟩
    · rw [if_neg hg] at h; exact absurd h (by simp)
  · rw [if_neg hoff] at h; exact absurd h (by simp)
termination_by data.length - off
decreasing_by simp_wf; omega

/-- Smallest value a successful `rv2Core` run of `s + 1` bytes from
accumulator `num` can produce. -/
def v2lo : Nat → Nat → Nat
  | num, 0 => 128 * num
  | num, s + 1 => v2lo (128 * num + 1) s

/-- Largest value a successful `rv2Core` run of `s + 1` bytes from
accumulator `num` can produce. -/
def v2hi : Nat → Nat → Nat
  | num, 0 => 128 * num + 127
  | num, s + 1 => v2hi (128 * num + 128) s

theorem v2lo_mono (s : Nat) : ∀ a b, a ≤ b → v2lo a s ≤ v2lo b s := by
  induction s with
  | zero => intro a b h; simp only [v2lo]; omega
  | succ s ih => intro a b h; rw [v2lo, v2lo]; exact ih _ _ (by omega)

theorem v2hi_mono (s : Nat) : ∀ a b, a ≤ b → v2hi a s ≤ v2hi b s := by
  induction s with
  | zero => intro a b h; simp only [v2hi]; omega
  | succ s ih => intro a b h; rw [v2hi, v2hi]; exact ih _ _ (by omega)

/-- At equal length, the ranges of distinct accumulators are disjoint. -/
theorem v2hi_lt_v2lo_succ (s : Nat) : ∀ a, v2hi a s < v2lo (a + 1) s := by
  induction s with
  | zero => intro a; simp only [v2hi, v2lo]; omega
  | succ s ih =>
    intro a
    rw [v2hi, v2lo]
    have h : 128 * (a + 1) + 1 = (128 * a + 128) + 1 := by ring
    rw [h]
    exact ih _

theorem v2lo_le_succ (s : Nat) : ∀ a, v2lo a s ≤ v2lo a (s + 1) := by
  induction s with
  | zero =>
    intro a
    rw [show v2lo a 1 = v2lo (128 * a + 1) 0 from rfl]
    simp only [v2lo]; omega
  | succ s ih =>
    intro a
    rw [v2lo, show v2lo a (s + 2) = v2lo (128 * a + 1) (s + 1) from rfl]
    exact ih _

theorem v2lo_mono_s (a : Nat) {s t : Nat} (h : s ≤ t) : v2lo a s ≤ v2lo a t := by
  induction t with
  | zero => have : s = 0 := by omega
            subst this; exact le_refl _
  | succ t ih =>
    rcases Nat.lt_or_ge s (t + 1) with h2 | h2
    · exact le_trans (ih (by omega)) (v2lo_le_succ t a)
    · have : s = t + 1 := by omega
      subst this; exact le_refl _

/-- Longer runs from the same accumulator produce strictly larger values. -/
theorem v2hi_lt_v2lo_len (s : Nat) : ∀ a, v2hi a s < v2lo a (s + 1) := by
  induction s with
  | zero =>
    intro a
    rw [show v2lo a 1 = v2lo (128 * a + 1) 0 from rfl]
    simp only [v2hi, v2lo]; omega
  | succ s ih =>
    intro a
    rw [v2hi, show v2lo a (s + 2) = v2lo (128 * a + 1) (s + 1) from rfl,
      show v2lo (128 * a + 1) (s + 1) = v2lo (128 * (128 * a + 1) + 1) s from rfl]
    calc v2hi (128 * a + 128) s < v2lo (128 * a + 128 + 1) s := v2hi_lt_v2lo_succ s _
      _ ≤ v2lo (128 * (128 * a + 1) + 1) s := v2lo_mono s _ _ (by omega)

/-- A successful `rv2Core` run consumes at least one byte. -/
theorem rv2Core_pos (l : List Nat) (num s v : Nat)
    (h : rv2Core num l = some (s, v)) : 1 ≤ s := by
  cases l with
  | nil => simp [rv2Core] at h
  | cons ch rest =>
    rw [rv2Core] at h
    dsimp only at h
    by_cases hg : num ≤ 0x3fffffffffff - (ch &&& 127)
    · rw [if_pos hg] at h
      by_cases hbit : ch &&& 128 = 0
      · rw [if_pos hbit] at h
        simp only [Option.some.injEq, Prod.mk.injEq] at h
        omega
      · rw [if_neg hbit] at h
        by_cases hmsi : num * 128 + (ch &&& 127) = 9007199254740991
        · rw [if_pos hmsi] at h; simp at h
        · rw [if_neg hmsi] at h
          cases hrec : rv2Core (num * 128 + (ch &&& 127) + 1) rest with
          | none => rw [hrec] at h; simp at h
          | some p =>
            obtain ⟨s0, v0⟩ := p
            rw [hrec] at h
            simp only [Option.some.injEq, Prod.mk.injEq] at h
            omega
    · rw [if_neg hg] at h; simp at h

/-- The value produced by a successful `rv2Core` run of `s + 1` bytes from
accumulator `num` lies between `v2lo num s` and `v2hi num s`. -/
theorem rv2Core_range : ∀ (l : List Nat) (num s v : Nat),
    rv2Core num l = some (s + 1, v) →
    v2lo num s ≤ v ∧ v ≤ v2hi num s := by
  intro l
  induction l with
  | nil => intro num s v h; simp [rv2Core] at h
  | cons ch rest ih =>
    intro num s v h
    rw [rv2Core] at h
    dsimp only at h
    by_cases hg : num ≤ 0x3fffffffffff - (ch &&& 127)
    · rw [if_pos hg] at h
      have hc : ch &&& 127 ≤ 127 := by rw [and_127_eq_mod]; omega
      by_cases hbit : ch &&& 128 = 0
      · rw [if_pos hbit] at h
        simp only [Option.some.injEq, Prod.mk.injEq] at h
        have hs0 : s = 0 := by omega
        subst hs0
        simp only [v2lo, v2hi]
        omega
      · rw [if_neg hbit] at h
        by_cases hmsi : num * 128 + (ch &&& 127) = 9007199254740991
        · rw [if_pos hmsi] at h; simp at h
        · rw [if_neg hmsi] at h
          cases hrec : rv2Core (num * 128 + (ch &&& 127) + 1) rest with
          | none => rw [hrec] at h; simp at h
          | some p =>
            obtain ⟨s0, v0⟩ := p
            rw [hrec] at h
            simp only [Option.some.injEq, Prod.mk.injEq] at h
            obtain ⟨hs, hv⟩ := h
            have hpos : 1 ≤ s0 := rv2Core_pos _ _ _ _ hrec
            obtain ⟨s0p, rfl⟩ : ∃ k, s0 = k + 1 := ⟨s0 - 1, by omega⟩
            have hss : s = s0p + 1 := by omega
            subst hss
            subst hv
            obtain ⟨hlo, hhi⟩ := ih _ _ _ hrec
            constructor
            · calc v2lo num (s0p + 1) = v2lo (128 * num + 1) s0p := by rw [v2lo]
                _ ≤ v2lo (num * 128 + (ch &&& 127) + 1) s0p :=
                    v2lo_mono _ _ _ (by omega)
                _ ≤ v0 := hlo
            · calc v0 ≤ v2hi (num * 128 + (ch &&& 127) + 1) s0p := hhi
                _ ≤ v2hi (128 * num + 128) s0p := v2hi_mono _ _ _ (by omega)
                _ = v2hi num (s0p + 1) := by rw [v2hi]
    · rw [if_neg hg] at h; simp at h

/-- Two full `rv2Core` runs from accumulators `a1 < a2 ≤ 128·a1` cannot
produce the same value. -/
theorem v2range_disjoint (s1 s2 a1 a2 v : Nat) (hlt : a1 < a2)
    (hle : a2 ≤ 128 * a1)
    (h1lo : v2lo a1 s1 ≤ v) (h1hi : v ≤ v2hi a1 s1)
    (h2lo : v2lo a2 s2 ≤ v) (h2hi : v ≤ v2hi a2 s2) : False := by
  rcases Nat.lt_trichotomy s1 s2 with h | h | h
  · have : v < v := by
      calc v ≤ v2hi a1 s1 := h1hi
        _ < v2lo a1 (s1 + 1) := v2hi_lt_v2lo_len s1 a1
        _ ≤ v2lo a1 s2 := v2lo_mono_s a1 (by omega)
        _ ≤ v2lo a2 s2 := v2lo_mono s2 _ _ (by omega)
        _ ≤ v := h2lo
    omega
  · subst h
    have : v < v := by
      calc v ≤ v2hi a1 s1 := h1hi
        _ < v2lo (a1 + 1) s1 := v2hi_lt_v2lo_succ s1 a1
        _ ≤ v2lo a2 s1 := v2lo_mono s1 _ _ (by omega)
        _ ≤ v := h2lo
    omega
  · have : v < v := by
      calc v ≤ v2hi a2 s2 := h2hi
        _ < v2lo (a2 + 1) s2 := v2hi_lt_v2lo_succ s2 a2
        _ ≤ v2lo (128 * a1 + 1) s2 := v2lo_mono s2 _ _ (by omega)
        _ = v2lo a1 (s2 + 1) := by rw [v2lo]
        _ ≤ v2lo a1 s1 := v2lo_mono_s a1 (by omega)
        _ ≤ v := h1lo
    omega

/-- A byte with the continuation bit set is determined by its low 7 bits. -/
theorem byte_of_cont (ch : Nat) (hch : ch < 256) (hbit : ¬ ch &&& 128 = 0) :
    ch = (ch &&& 127) + 128 := by
  have h := (and_128_eq_zero_iff ch hch).not.mp hbit
  rw [and_127_eq_mod]
  omega

/-- A byte with the continuation bit clear equals its low 7 bits. -/
theorem byte_of_term (ch : Nat) (hch : ch < 256) (hbit : ch &&& 128 = 0) :
    ch = ch &&& 127 := by
  have h := (and_128_eq_zero_iff ch hch).mp hbit
  rw [and_127_eq_mod]
  omega

/-- Full decodes of `rv2Core` are injective: two well-formed byte lists that
`rv2Core` decodes entirely, from the same accumulator, to the same value are
equal. -/
theorem rv2Core_inj : ∀ (l1 l2 : List Nat) (num v : Nat),
    validBytes l1 → validBytes l2 →
    rv2Core num l1 = some (l1.length, v) →
    rv2Core num l2 = some (l2.length, v) → l1 = l2 := by
  intro l1
  induction l1 with
  | nil => intro l2 num v _ _ h1 _; simp [rv2Core] at h1
  | cons ch1 r1 ih =>
    intro l2 num v hv1 hv2 h1 h2
    cases l2 with
    | nil => simp [rv2Core] at h2
    | cons ch2 r2 =>
      have hch1 : ch1 < 256 := hv1 ch1 (List.mem_cons_self _ _)
      have hch2 : ch2 < 256 := hv2 ch2 (List.mem_cons_self _ _)
      have hc1 : ch1 &&& 127 ≤ 127 := by rw [and_127_eq_mod]; omega
      have hc2 : ch2 &&& 127 ≤ 127 := by rw [and_127_eq_mod]; omega
      rw [rv2Core] at h1 h2
      dsimp only at h1 h2
      simp only [List.length_cons] at h1 h2
      by_cases hg1 : num ≤ 0x3fffffffffff - (ch1 &&& 127)
      case neg => rw [if_neg hg1] at h1; simp at h1
      rw [if_pos hg1] at h1
      by_cases hg2 : num ≤ 0x3fffffffffff - (ch2 &&& 127)
      case neg => rw [if_neg hg2] at h2; simp at h2
      rw [if_pos hg2] at h2
      by_cases hbit1 : ch1 &&& 128 = 0 <;> by_cases hbit2 : ch2 &&& 128 = 0
      · -- both terminal
        rw [if_pos hbit1] at h1
        rw [if_pos hbit2] at h2
        simp only [Option.some.injEq, Prod.mk.injEq] at h1 h2
        have hr1 : r1 = [] := List.eq_nil_of_length_eq_zero (by omega)
        have hr2 : r2 = [] := List.eq_nil_of_length_eq_zero (by omega)
        subst hr1; subst hr2
        have : ch1 &&& 127 = ch2 &&& 127 := by omega
        rw [byte_of_term ch1 hch1 hbit1, byte_of_term ch2 hch2 hbit2, this]
      · -- l1 terminal, l2 continuation: value ranges separate
        rw [if_pos hbit1] at h1
        rw [if_neg hbit2] at h2
        simp only [Option.some.injEq, Prod.mk.injEq] at h1
        by_cases hmsi2 : num * 128 + (ch2 &&& 127) = 9007199254740991
        case pos => rw [if_pos hmsi2] at h2; simp at h2
        rw [if_neg hmsi2] at h2
        cases hrec : rv2Core (num * 128 + (ch2 &&& 127) + 1) r2 with
        | none => rw [hrec] at h2; simp at h2
        | some p =>
          obtain ⟨s0, v0⟩ := p
          rw [hrec] at h2
          simp only [Option.some.injEq, Prod.mk.injEq] at h2
          have hpos : 1 ≤ s0 := rv2Core_pos _ _ _ _ hrec
          obtain ⟨s0p, rfl⟩ : ∃ k, s0 = k + 1 := ⟨s0 - 1, by omega⟩
          have hv0 : v0 = v := h2.2
          subst hv0
          obtain ⟨hlo, _⟩ := rv2Core_range _ _ _ _ hrec
          have hbig : v2lo (num * 128 + (ch2 &&& 127) + 1) 0 ≤ v0 :=
            le_trans (v2lo_mono_s _ (Nat.zero_le _)) hlo
          simp only [v2lo] at hbig
          omega
      · -- l1 continuation, l2 terminal: symmetric
        rw [if_neg hbit1] at h1
        rw [if_pos hbit2] at h2
        simp only [Option.some.injEq, Prod.mk.injEq] at h2
        by_cases hmsi1 : num * 128 + (ch1 &&& 127) = 9007199254740991
        case pos => rw [if_pos hmsi1] at h1; simp at h1
        rw [if_neg hmsi1] at h1
        cases hrec : rv2Core (num * 128 + (ch1 &&& 127) + 1) r1 with
        | none => rw [hrec] at h1; simp at h1
        | some p =>
          obtain ⟨s0, v0⟩ := p
          rw [hrec] at h1
          simp only [Option.some.injEq, Prod.mk.injEq] at h1
          have hpos : 1 ≤ s0 := rv2Core_pos _ _ _ _ hrec
          obtain ⟨s0p, rfl⟩ : ∃ k, s0 = k + 1 := ⟨s0 - 1, by omega⟩
          have hv0 : v0 = v := h1.2
          subst hv0
          obtain ⟨hlo, _⟩ := rv2Core_range _ _ _ _ hrec
          have hbig : v2lo (num * 128 + (ch1 &&& 127) + 1) 0 ≤ v0 :=
            le_trans (v2lo_mono_s _ (Nat.zero_le _)) hlo
          simp only [v2lo] at hbig
          omega
      · -- both continuation
        rw [if_neg hbit1] at h1
        rw [if_neg hbit2] at h2
        by_cases hmsi1 : num * 128 + (ch1 &&& 127) = 9007199254740991
        case pos => rw [if_pos hmsi1] at h1; simp at h1
        rw [if_neg hmsi1] at h1
        by_cases hmsi2 : num * 128 + (ch2 &&& 127) = 9007199254740991
        case pos => rw [if_pos hmsi2] at h2; simp at h2
        rw [if_neg hmsi2] at h2
        cases hrec1 : rv2Core (num * 128 + (ch1 &&& 127) + 1) r1 with
        | none => rw [hrec1] at h1; simp at h1
        | some p1 =>
          obtain ⟨s1, v1⟩ := p1
          rw [hrec1] at h1
          simp only [Option.some.injEq, Prod.mk.injEq] at h1
          cases hrec2 : rv2Core (num * 128 + (ch2 &&& 127) + 1) r2 with
          | none => rw [hrec2] at h2; simp at h2
          | some p2 =>
            obtain ⟨s2, v2⟩ := p2
            rw [hrec2] at h2
            simp only [Option.some.injEq, Prod.mk.injEq] at h2
            have hv1v : v1 = v := h1.2
            have hv2v : v2 = v := h2.2
            subst hv1v; subst hv2v
            have hs1 : s1 = r1.length := by omega
            have hs2 : s2 = r2.length := by omega
            by_cases hcc : ch1 &&& 127 = ch2 &&& 127
            · -- same low bits: same byte, recurse on the tails
              have hr : r1 = r2 := by
                subst hs1; subst hs2
                rw [hcc] at hrec1
                exact ih r2 _ _ (fun b hb => hv1 b (List.mem_cons_of_mem _ hb))
                  (fun b hb => hv2 b (List.mem_cons_of_mem _ hb)) hrec1 hrec2
              rw [byte_of_cont ch1 hch1 hbit1, byte_of_cont ch2 hch2 hbit2,
                hcc, hr]
            · -- different low bits: disjoint value ranges
              exfalso
              have hpos1 : 1 ≤ s1 := rv2Core_pos _ _ _ _ hrec1
              have hpos2 : 1 ≤ s2 := rv2Core_pos _ _ _ _ hrec2
              obtain ⟨s1p, rfl⟩ : ∃ k, s1 = k + 1 := ⟨s1 - 1, by omega⟩
              obtain ⟨s2p, rfl⟩ : ∃ k, s2 = k + 1 := ⟨s2 - 1, by omega⟩
              obtain ⟨h1lo, h1hi⟩ := rv2Core_range _ _ _ _ hrec1
              obtain ⟨h2lo, h2hi⟩ := rv2Core_range _ _ _ _ hrec2
              rcases Nat.lt_or_ge (ch1 &&& 127) (ch2 &&& 127) with hlt | hge
              · exact v2range_disjoint s1p s2p
                  (num * 128 + (ch1 &&& 127) + 1) (num * 128 + (ch2 &&& 127) + 1)
                  _ (by omega) (by omega) h1lo h1hi h2lo h2hi
              · have hlt2 : ch2 &&& 127 < ch1 &&& 127 := by omega
                exact v2range_disjoint s2p s1p
                  (num * 128 + (ch2 &&& 127) + 1) (num * 128 + (ch1 &&& 127) + 1)
                  _ (by omega) (by omega) h2lo h2hi h1lo h1hi

/-- Claim C5 counterexample: contrary to the spec, the bit-packed varint
format admits no duplicate encodings at all — there is no value in the safe
range with two distinct full byte encodings that `readVarint2` accepts. -/
theorem C5_varint2_has_no_duplicate_encodings :
    ¬ ∃ (v : Nat) (bs1 bs2 : List Nat), v ≤ 9007199254740991 ∧
      validBytes bs1 ∧ validBytes bs2 ∧ bs1 ≠ bs2 ∧
      readVarint2 bs1 0 = .ok (bs1.length, v) ∧
      readVarint2 bs2 0 = .ok (bs2.length, v) := by
  rintro ⟨v, bs1, bs2, -, hv1, hv2, hne, hd1, hd2⟩
  rw [readVarint2] at hd1 hd2
  obtain ⟨s1, hc1, hs1⟩ := rv2Loop_ok bs1 0 0 0 _ v hd1
  obtain ⟨s2, hc2, hs2⟩ := rv2Loop_ok bs2 0 0 0 _ v hd2
  rw [List.drop_zero] at hc1 hc2
  have he1 : s1 = bs1.length := by omega
  have he2 : s2 = bs2.length := by omega
  rw [he1] at hc1
  rw [he2] at hc2
  exact hne (rv2Core_inj bs1 bs2 0 v hv1 hv2 hc1 hc2)

/-- Claim C5 (corrected): the bit-packed varint format is canonical after
all — `readVarint2` is injective on full encodings: two well-formed byte
sequences it decodes entirely (consuming every byte) to the same value are
equal, so no value has two distinct accepted encodings. -/
theorem C5_varint2_decode_injective (bs1 bs2 : List Nat) (v : Nat)
    (h1 : validBytes bs1) (h2 : validBytes bs2)
    (hd1 : readVarint2 bs1 0 = .ok (bs1.length, v))
    (hd2 : readVarint2 bs2 0 = .ok (bs2.length, v)) :
    bs1 = bs2 := by
  rw [readVarint2] at hd1 hd2
  obtain ⟨s1, hc1, hs1⟩ := rv2Loop_ok bs1 0 0 0 _ v hd1
  obtain ⟨s2, hc2, hs2⟩ := rv2Loop_ok bs2 0 0 0 _ v hd2
  rw [List.drop_zero] at hc1 hc2
  have he1 : s1 = bs1.length := by omega
  have he2 : s2 = bs2.length := by omega
  rw [he1] at hc1
  rw [he2] at hc2
  exact rv2Core_inj bs1 bs2 0 v h1 h2 hc1 hc2

/-- Witness for the corrected claim C5, at the two-byte encoding of 128. -/
theorem C5_varint2_decode_injective_witness :
    ([128, 0] : List Nat) = [128, 0] :=
  C5_varint2_decode_injective [128, 0] [128, 0] 128 (by decide) (by decide)
    (by simp [readVarint2, rv2Loop, getB]; rfl)
    (by simp [readVarint2, rv2Loop, getB]; rfl)

/-! ## Claim C6 development: atomicity of the reader operations -/

/-- The scan of `readNullString` never moves backwards. -/
theorem scanZero_ge (data : List Nat) (i : Nat) : i ≤ scanZero data i := by
  rw [scanZero]
  by_cases h : i < data.length
  · rw [if_pos h]
    by_cases h0 : getB data i = 0
    · rw [if_pos h0]
    · rw [if_neg h0]
      have := scanZero_ge data (i + 1)
      omega
  · rw [if_neg h]
termination_by data.length - i
decreasing_by simp_wf; omega

theorem rdFixed_err (width : Nat) (f : List Nat → Nat → Int) (s : RState)
    (e : RErr) (s' : RState) (h : rdFixed width f s = .error (e, s')) :
    s' = s := by
  rw [rdFixed] at h
  by_cases hb : s.offset + width ≤ s.data.length
  · rw [if_pos hb] at h; exact absurd h (by simp)
  · rw [if_neg hb] at h
    simp only [rBounds, Except.error.injEq, Prod.mk.injEq] at h
    exact h.2.symm

theorem rdFixed_ok (width : Nat) (f : List Nat → Nat → Int) (s : RState)
    (r : RResult) (s' : RState) (h : rdFixed width f s = .ok (r, s')) :
    s'.data = s.data ∧ s'.zeroCopy = s.zeroCopy ∧ s'.stack = s.stack ∧
      s'.offset = s.offset + width := by
  rw [rdFixed] at h
  by_cases hb : s.offset + width ≤ s.data.length
  · rw [if_pos hb] at h
    simp only [Except.ok.injEq, Prod.mk.injEq] at h
    rw [← h.2]
    exact ⟨rfl, rfl, rfl, rfl⟩
  · rw [if_neg hb] at h; exact absurd h (by simp)

theorem rdFixedE_err (width : Nat) (f : List Nat → Nat → Except EncodingError Int)
    (s : RState) (e : RErr) (s' : RState)
    (h : rdFixedE width f s = .error (e, s')) : s' = s := by
  rw [rdFixedE] at h
  by_cases hb : s.offset + width ≤ s.data.length
  · rw [if_pos hb] at h
    cases hf : f s.data s.offset with
    | ok v => rw [hf] at h; exact absurd h (by simp)
    | error e0 =>
      rw [hf] at h
      simp only [Except.error.injEq, Prod.mk.injEq] at h
      exact h.2.symm
  · rw [if_neg hb] at h
    simp only [rBounds, Except.error.injEq, Prod.mk.injEq] at h
    exact h.2.symm

theorem rdFixedE_ok (width : Nat) (f : List Nat → Nat → Except EncodingError Int)
    (s : RState) (r : RResult) (s' : RState)
    (h : rdFixedE width f s = .ok (r, s')) :
    s'.data = s.data ∧ s'.zeroCopy = s.zeroCopy ∧ s'.stack = s.stack ∧
      s'.offset = s.offset + width := by
  rw [rdFixedE] at h
  by_cases hb : s.offset + width ≤ s.data.length
  · rw [if_pos hb] at h
    cases hf : f s.data s.offset with
    | ok v =>
      rw [hf] at h
      simp only [Except.ok.injEq, Prod.mk.injEq] at h
      rw [← h.2]
      exact ⟨rfl, rfl, rfl, rfl⟩
    | error e0 => rw [hf] at h; exact absurd h (by simp)
  · rw [if_neg hb] at h; exact absurd h (by simp)

theorem rdVarintOp_err (s : RState) (e : RErr) (s' : RState)
    (h : rdVarintOp s = .error (e, s')) : s' = s := by
  rw [rdVarintOp] at h
  cases hv : readVarint s.data s.offset with
  | ok p =>
    obtain ⟨sz, v⟩ := p
    rw [hv] at h; exact absurd h (by simp)
  | error e0 =>
    rw [hv] at h
    simp only [Except.error.injEq, Prod.mk.injEq] at h
    exact h.2.symm

theorem rdVarintOp_ok (s : RState) (p : Nat × Int) (s' : RState)
    (h : rdVarintOp s = .ok (p, s')) :
    readVarint s.data s.offset = .ok p ∧
      s' = ⟨s.data, s.offset + p.1, s.zeroCopy, s.stack⟩ := by
  rw [rdVarintOp] at h
  cases hv : readVarint s.data s.offset with
  | ok q =>
    obtain ⟨sz, v⟩ := q
    rw [hv] at h
    simp only [Except.ok.injEq, Prod.mk.injEq] at h
    rw [← h.1, ← h.2]
    exact ⟨rfl, rfl⟩
  | error e0 => rw [hv] at h; exact absurd h (by simp)

theorem rdVarint2Op_err (s : RState) (e : RErr) (s' : RState)
    (h : rdVarint2Op s = .error (e, s')) : s' = s := by
  rw [rdVarint2Op] at h
  cases hv : readVarint2 s.data s.offset with
  | ok p =>
    obtain ⟨sz, v⟩ := p
    rw [hv] at h; exact absurd h (by simp)
  | error e0 =>
    rw [hv] at h
    simp only [Except.error.injEq, Prod.mk.injEq] at h
    exact h.2.symm

theorem rdVarint2Op_ok (s : RState) (p : Nat × Nat) (s' : RState)
    (h : rdVarint2Op s = .ok (p, s')) :
    readVarint2 s.data s.offset = .ok p ∧
      s' = ⟨s.data, s.offset + p.1, s.zeroCopy, s.stack⟩ := by
  rw [rdVarint2Op] at h
  cases hv : readVarint2 s.data s.offset with
  | ok q =>
    obtain ⟨sz, v⟩ := q
    rw [hv] at h
    simp only [Except.ok.injEq, Prod.mk.injEq] at h
    rw [← h.1, ← h.2]
    exact ⟨rfl, rfl⟩
  | error e0 => rw [hv] at h; exact absurd h (by simp)

theorem rdBytesOp_err (size : Int) (zc : Bool) (s : RState) (e : RErr)
    (s' : RState) (h : rdBytesOp size zc s = .error (e, s')) : s' = s := by
  rw [rdBytesOp] at h
  by_cases hneg : size < 0
  · rw [if_pos hneg] at h
    simp only [Except.error.injEq, Prod.mk.injEq] at h
    exact h.2.symm
  · rw [if_neg hneg] at h
    by_cases hb : (s.offset : Int) + size ≤ (s.data.length : Int)
    · rw [if_pos hb] at h; exact absurd h (by simp)
    · rw [if_neg hb] at h
      simp only [rBounds, Except.error.injEq, Prod.mk.injEq] at h
      exact h.2.symm

theorem rdBytesOp_ok (size : Int) (zc : Bool) (s : RState) (r : RetBuf)
    (s' : RState) (h : rdBytesOp size zc s = .ok (r, s')) :
    s'.data = s.data ∧ s'.zeroCopy = s.zeroCopy ∧ s'.stack = s.stack ∧
      s'.offset = s.offset + size.toNat := by
  rw [rdBytesOp] at h
  by_cases hneg : size < 0
  · rw [if_pos hneg] at h; exact absurd h (by simp)
  · rw [if_neg hneg] at h
    by_cases hb : (s.offset : Int) + size ≤ (s.data.length : Int)
    · rw [if_pos hb] at h
      simp only [Except.ok.injEq, Prod.mk.injEq] at h
      rw [← h.2]
      exact ⟨rfl, rfl, rfl, rfl⟩
    · rw [if_neg hb] at h; exact absurd h (by simp)

theorem rdStringOp_err (size : Int) (s : RState) (e : RErr) (s' : RState)
    (h : rdStringOp size s = .error (e, s')) : s' = s := by
  rw [rdStringOp] at h
  by_cases hneg : size < 0
  · rw [if_pos hneg] at h
    simp only [Except.error.injEq, Prod.mk.injEq] at h
    exact h.2.symm
  · rw [if_neg hneg] at h
    by_cases hb : (s.offset : Int) + size ≤ (s.data.length : Int)
    · rw [if_pos hb] at h; exact absurd h (by simp)
    · rw [if_neg hb] at h
      simp only [rBounds, Except.error.injEq, Prod.mk.injEq] at h
      exact h.2.symm

theorem rdStringOp_ok (size : Int) (s : RState) (bs : List Nat) (s' : RState)
    (h : rdStringOp size s = .ok (bs, s')) :
    s'.data = s.data ∧ s'.zeroCopy = s.zeroCopy ∧ s'.stack = s.stack ∧
      s'.offset = s.offset + size.toNat := by
  rw [rdStringOp] at h
  by_cases hneg : size < 0
  · rw [if_pos hneg] at h; exact absurd h (by simp)
  · rw [if_neg hneg] at h
    by_cases hb : (s.offset : Int) + size ≤ (s.data.length : Int)
    · rw [if_pos hb] at h
      simp only [Except.ok.injEq, Prod.mk.injEq] at h
      rw [← h.2]
      exact ⟨rfl, rfl, rfl, rfl⟩
    · rw [if_neg hb] at h; exact absurd h (by simp)

theorem rdNullStringOp_err (s : RState) (e : RErr) (s' : RState)
    (h : rdNullStringOp s = .error (e, s')) : s' = s := by
  rw [rdNullStringOp] at h
  dsimp only at h
  by_cases hb : s.offset + 1 ≤ s.data.length
  · rw [if_pos hb] at h
    by_cases hi : scanZero s.data s.offset ≠ s.data.length
    · rw [if_pos hi] at h
      cases hs : rdStringOp ((scanZero s.data s.offset : Int) - (s.offset : Int)) s with
      | ok p => obtain ⟨bs, s1⟩ := p; rw [hs] at h; exact absurd h (by simp)
      | error q =>
        obtain ⟨e0, s0⟩ := q
        rw [hs] at h
        simp only [Except.error.injEq, Prod.mk.injEq] at h
        rw [← h.2]
        exact rdStringOp_err _ _ _ _ hs
    · rw [if_neg hi] at h
      simp only [rBounds, Except.error.injEq, Prod.mk.injEq] at h
      exact h.2.symm
  · rw [if_neg hb] at h
    simp only [rBounds, Except.error.injEq, Prod.mk.injEq] at h
    exact h.2.symm

theorem rdNullStringOp_ok (s : RState) (bs : List Nat) (s' : RState)
    (h : rdNullStringOp s = .ok (bs, s')) :
    s'.data = s.data ∧ s'.zeroCopy = s.zeroCopy ∧ s'.stack = s.stack ∧
      s'.offset = s.offset + (scanZero s.data s.offset + 1 - s.offset) := by
  rw [rdNullStringOp] at h
  dsimp only at h
  by_cases hb : s.offset + 1 ≤ s.data.length
  · rw [if_pos hb] at h
    by_cases hi : scanZero s.data s.offset ≠ s.data.length
    · rw [if_pos hi] at h
      cases hs : rdStringOp ((scanZero s.data s.offset : Int) - (s.offset : Int)) s with
      | ok p =>
        obtain ⟨bs0, s1⟩ := p
        rw [hs] at h
        simp only [Except.ok.injEq, Prod.mk.injEq] at h
        obtain ⟨h1, h2, h3, h4⟩ := rdStringOp_ok _ _ _ _ hs
        rw [← h.2]
        have hge := scanZero_ge s.data s.offset
        exact ⟨h1, h2, h3, by simp only []; omega⟩
      | error q => rw [hs] at h; exact absurd h (by simp)
    · rw [if_neg hi] at h; exact absurd h (by simp)
  · rw [if_neg hb] at h; exact absurd h (by simp)

/-- Lifting atomicity through the result-constructor `map` of `runRead`. -/
theorem map_atomic {α β : Type} (run : RState → Except (RErr × RState) (α × RState))
    (g : α × RState → β) (adv : Nat) (s : RState)
    (h1 : ∀ e s', run s = .error (e, s') → s' = s)
    (h2 : ∀ p s', run s = .ok (p, s') →
      s'.data = s.data ∧ s'.zeroCopy = s.zeroCopy ∧ s'.stack = s.stack ∧
        s'.offset = s.offset + adv) :
    (∀ e s', (run s).map (fun x => (g x, x.2)) = .error (e, s') → s' = s) ∧
    (∀ r s', (run s).map (fun x => (g x, x.2)) = .ok (r, s') →
      s'.data = s.data ∧ s'.zeroCopy = s.zeroCopy ∧ s'.stack = s.stack ∧
        s'.offset = s.offset + adv) := by
  constructor
  · intro e s' h
    cases hin : run s with
    | ok p =>
      rw [hin] at h
      exact absurd h (by simp [Except.map])
    | error q =>
      obtain ⟨e0, s0⟩ := q
      rw [hin] at h
      simp only [Except.map, Except.error.injEq, Prod.mk.injEq] at h
      rw [← h.2]
      exact h1 _ _ hin
  · intro r s' h
    cases hin : run s with
    | ok p =>
      obtain ⟨a, st⟩ := p
      rw [hin] at h
      simp only [Except.map, Except.ok.injEq, Prod.mk.injEq] at h
      rw [← h.2]
      exact h2 _ _ hin
    | error q =>
      rw [hin] at h
      exact absurd h (by simp [Except.map])
/-- Claim C6 counterexample: `readVarBytes` is not atomic.  On the one-byte
buffer `[0x05]` the inner varint read succeeds and moves the cursor to 1
before `readBytes` fails its bounds assertion, so the reader is left at
offset 1, not at the entry offset 0. -/
theorem C6_varBytes_advances_before_failing :
    runRead (.varBytes false) ⟨[5], 0, false, []⟩ =
      .error (.enc ⟨.num 1, .str "Out of bounds read"⟩, ⟨[5], 1, false, []⟩) ∧
    RState.offset ⟨[5], 1, false, []⟩ ≠ RState.offset ⟨[5], 0, false, []⟩ := by
  exact ⟨by decide, by decide⟩

/-- Claim C6 (corrected): every read operation of `BufferReader` except the
two composite length-prefixed reads (`readVarBytes`, `readVarString`) is
atomic — a throw leaves the reader state exactly as it was before the call,
and a success changes nothing but the offset, which advances by exactly the
number of bytes consumed. -/
theorem C6_prim_reads_atomic (op : ROp) (s : RState) (h : primOp op = true) :
    (∀ e s', runRead op s = .error (e, s') → s' = s) ∧
    (∀ r s', runRead op s = .ok (r, s') →
      s'.data = s.data ∧ s'.zeroCopy = s.zeroCopy ∧ s'.stack = s.stack ∧
        s'.offset = s.offset + consumedBytes op s) := by
  cases op with
  | varBytes zc => simp [primOp] at h
  | varStr limit => simp [primOp] at h
  | u8 => exact ⟨fun e s' h' => rdFixed_err 1 readU8 s e s' h',
                 fun r s' h' => rdFixed_ok 1 readU8 s r s' h'⟩
  | u16 => exact ⟨fun e s' h' => rdFixed_err 2 readU16 s e s' h',
                  fun r s' h' => rdFixed_ok 2 readU16 s r s' h'⟩
  | u16be => exact ⟨fun e s' h' => rdFixed_err 2 readU16BE s e s' h',
                    fun r s' h' => rdFixed_ok 2 readU16BE s r s' h'⟩
  | u32 => exact ⟨fun e s' h' => rdFixed_err 4 readU32 s e s' h',
                  fun r s' h' => rdFixed_ok 4 readU32 s r s' h'⟩
  | u32be => exact ⟨fun e s' h' => rdFixed_err 4 readU32BE s e s' h',
                    fun r s' h' => rdFixed_ok 4 readU32BE s r s' h'⟩
  | u64 => exact ⟨fun e s' h' => rdFixedE_err 8 readU64 s e s' h',
                  fun r s' h' => rdFixedE_ok 8 readU64 s r s' h'⟩
  | u64be => exact ⟨fun e s' h' => rdFixedE_err 8 readU64BE s e s' h',
                    fun r s' h' => rdFixedE_ok 8 readU64BE s r s' h'⟩
  | i8 => exact ⟨fun e s' h' => rdFixed_err 1 readI8 s e s' h',
                 fun r s' h' => rdFixed_ok 1 readI8 s r s' h'⟩
  | i16 => exact ⟨fun e s' h' => rdFixed_err 2 readI16 s e s' h',
                  fun r s' h' => rdFixed_ok 2 readI16 s r s' h'⟩
  | i16be => exact ⟨fun e s' h' => rdFixed_err 2 readI16BE s e s' h',
                    fun r s' h' => rdFixed_ok 2 readI16BE s r s' h'⟩
  | i32 => exact ⟨fun e s' h' => rdFixed_err 4 readI32 s e s' h',
                  fun r s' h' => rdFixed_ok 4 readI32 s r s' h'⟩
  | i32be => exact ⟨fun e s' h' => rdFixed_err 4 readI32BE s e s' h',
                    fun r s' h' => rdFixed_ok 4 readI32BE s r s' h'⟩
  | i64 => exact ⟨fun e s' h' => rdFixedE_err 8 readI64 s e s' h',
                  fun r s' h' => rdFixedE_ok 8 readI64 s r s' h'⟩
  | i64be => exact ⟨fun e s' h' => rdFixedE_err 8 readI64BE s e s' h',
                    fun r s' h' => rdFixedE_ok 8 readI64BE s r s' h'⟩
  | f32 => exact ⟨fun e s' h' => rdFixed_err 4 readU32 s e s' h',
                  fun r s' h' => rdFixed_ok 4 readU32 s r s' h'⟩
  | f32be => exact ⟨fun e s' h' => rdFixed_err 4 readU32BE s e s' h',
                    fun r s' h' => rdFixed_ok 4 readU32BE s r s' h'⟩
  | f64 => exact ⟨fun e s' h' => rdFixed_err 8 readDoubleBits s e s' h',
                  fun r s' h' => rdFixed_ok 8 readDoubleBits s r s' h'⟩
  | f64be => exact ⟨fun e s' h' => rdFixed_err 8 readDoubleBitsBE s e s' h',
                    fun r s' h' => rdFixed_ok 8 readDoubleBitsBE s r s' h'⟩
  | varint =>
    refine map_atomic rdVarintOp (fun x => RResult.num x.1.2)
      (consumedBytes ROp.varint s) s ?_ ?_
    · exact fun e s' h' => rdVarintOp_err s e s' h'
    · intro p s' h'
      obtain ⟨sz, v⟩ := p
      obtain ⟨hv, hs⟩ := rdVarintOp_ok s (sz, v) s' h'
      subst hs
      refine ⟨rfl, rfl, rfl, ?_⟩
      simp only [consumedBytes, hv]
  | varint2 =>
    refine map_atomic rdVarint2Op (fun x => RResult.num (x.1.2 : Int))
      (consumedBytes ROp.varint2 s) s ?_ ?_
    · exact fun e s' h' => rdVarint2Op_err s e s' h'
    · intro p s' h'
      obtain ⟨sz, v⟩ := p
      obtain ⟨hv, hs⟩ := rdVarint2Op_ok s (sz, v) s' h'
      subst hs
      refine ⟨rfl, rfl, rfl, ?_⟩
      simp only [consumedBytes, hv]
  | bytes size zc =>
    refine map_atomic (rdBytesOp size zc) (fun x => RResult.rbuf x.1)
      (consumedBytes (ROp.bytes size zc) s) s ?_ ?_
    · exact fun e s' h' => rdBytesOp_err size zc s e s' h'
    · exact fun p s' h' => rdBytesOp_ok size zc s p s' h'
  | strO size =>
    refine map_atomic (rdStringOp size) (fun x => RResult.rstr x.1)
      (consumedBytes (ROp.strO size) s) s ?_ ?_
    · exact fun e s' h' => rdStringOp_err size s e s' h'
    · exact fun p s' h' => rdStringOp_ok size s p s' h'
  | nullStr =>
    refine map_atomic rdNullStringOp (fun x => RResult.rstr x.1)
      (consumedBytes ROp.nullStr s) s ?_ ?_
    · exact fun e s' h' => rdNullStringOp_err s e s' h'
    · exact fun p s' h' => rdNullStringOp_ok s p s' h'

/-- Witness for the corrected claim C6: a one-byte read on the buffer `[7]`
at offset 0 leaves everything but the offset unchanged and advances by its
consumed width. -/
theorem C6_prim_reads_atomic_witness :
    RState.data ⟨[7], 1, false, []⟩ = [7] ∧
      RState.zeroCopy ⟨[7], 1, false, []⟩ = false ∧
      RState.stack ⟨[7], 1, false, []⟩ = [] ∧
      RState.offset ⟨[7], 1, false, []⟩ =
        0 + consumedBytes ROp.u8 ⟨[7], 0, false, []⟩ :=
  (C6_prim_reads_atomic ROp.u8 ⟨[7], 0, false, []⟩ (by decide)).2
    (.num 7) ⟨[7], 1, false, []⟩ (by decide)

/-! ## Claim C8 theorems -/

/-- Claim C8 counterexample: in copying mode, `endData` still returns an
aliasing view when the popped span covers the whole buffer.  A reader over
`[1, 2]` in copying mode that consumed everything since `start()` gets back
the source buffer itself, and a later store into the source shows through:
the returned buffer reads `[9, 2]` instead of the `[1, 2]` it held when it
was returned. -/
theorem C8_endData_full_span_aliases :
    endDataOp false ⟨[1, 2], 2, false, [0]⟩ =
      .ok (.view 0 2, ⟨[1, 2], 2, false, []⟩) ∧
    valueOf [1, 2] (.view 0 2) = [1, 2] ∧
    valueOf (setB [1, 2] 0 9) (.view 0 2) = [9, 2] ∧
    ([9, 2] : List Nat) ≠ [1, 2] :=
  ⟨by decide, by decide, by decide, by decide⟩

/-- Claim C8 (corrected): what `readBytes` and `endData` hand back, per
mode.  `readBytes` honours the claim: an independent copy in copying mode
(its later value ignores the source) and an aliasing view in zero-copy
mode (its later value reads through the current source).  `endData` does
too — except when the popped span is the whole buffer, in which case it
returns the source buffer itself, an aliasing view even in copying mode. -/
theorem C8_buffer_return_modes (s : RState) :
    (∀ size zc r s', rdBytesOp size zc s = .ok (r, s') →
      (if s.zeroCopy || zc then r = .view s.offset (s.offset + size.toNat)
       else r = .copy (extract s.data s.offset size.toNat))) ∧
    (∀ zc start rest r s', s.stack = start :: rest →
      endDataOp zc s = .ok (r, s') →
      (if s.offset - start = s.data.length then r = .view 0 s.data.length
       else if s.zeroCopy || zc then r = .view start s.offset
       else r = .copy (extract s.data start (s.offset - start)))) ∧
    (∀ bs src, valueOf src (.copy bs) = bs) ∧
    (∀ a b src, valueOf src (.view a b) = extract src a (b - a)) := by
  refine ⟨?_, ?_, fun bs src => rfl, fun a b src => rfl⟩
  · intro size zc r s' h
    rw [rdBytesOp] at h
    by_cases hneg : size < 0
    · rw [if_pos hneg] at h; exact absurd h (by simp)
    · rw [if_neg hneg] at h
      by_cases hb : (s.offset : Int) + size ≤ (s.data.length : Int)
      · rw [if_pos hb] at h
        dsimp only at h
        simp only [Except.ok.injEq, Prod.mk.injEq] at h
        by_cases hzc : s.zeroCopy || zc
        · rw [if_pos hzc] at h ⊢; exact h.1.symm
        · rw [if_neg hzc] at h
          rw [if_neg hzc]
          exact h.1.symm
      · rw [if_neg hb] at h; exact absurd h (by simp)
  · intro zc start rest r s' hst h
    rw [endDataOp, hst] at h
    dsimp only at h
    simp only [Except.ok.injEq, Prod.mk.injEq] at h
    by_cases hfull : s.offset - start = s.data.length
    · rw [if_pos hfull] at h ⊢; exact h.1.symm
    · rw [if_neg hfull] at h
      rw [if_neg hfull]
      by_cases hzc : s.zeroCopy || zc
      · rw [if_pos hzc] at h ⊢; exact h.1.symm
      · rw [if_neg hzc] at h
        rw [if_neg hzc]
        exact h.1.symm

/-- Witness for the corrected claim C8: a copying-mode reader over
`[1, 2, 3]` that consumed bytes 1..2 since `start()` gets a fresh copy
`[2, 3]` back from `endData`. -/
theorem C8_buffer_return_modes_witness :
    (RetBuf.copy [2, 3] : RetBuf) = .copy (extract [1, 2, 3] 1 (3 - 1)) := by
  have h := (C8_buffer_return_modes ⟨[1, 2, 3], 3, false, [1]⟩).2.1 false 1 []
    (.copy [2, 3]) ⟨[1, 2, 3], 3, false, []⟩ rfl (by decide)
  simpa using h

/-! ## Claim C10 development: `SizeWriter` as the size oracle of `StaticWriter` -/

/-- `write64` always advances the cursor by 8 bytes. -/
theorem write64_off (dst : List Nat) (num : Int) (off : Nat) (be : Bool) :
    (write64 dst num off be).1 = off + 8 := by
  cases be <;>
    simp [write64, writeI32, writeI32BE, writeU32, writeU32BE]

/-- `writeVarint` advances the cursor by exactly `sizeVarint` bytes, for
every argument (the two functions branch on the same thresholds). -/
theorem writeVarint_off (dst : List Nat) (num : Int) (off : Nat) :
    (writeVarint dst num off).1 = off + sizeVarint num := by
  rw [writeVarint, sizeVarint]
  by_cases h1 : num < 253
  · rw [if_pos h1, if_pos h1]
  · rw [if_neg h1, if_neg h1]
    by_cases h2 : num ≤ 65535
    · rw [if_pos h2, if_pos h2]
    · rw [if_neg h2, if_neg h2]
      by_cases h3 : num ≤ 4294967295
      · rw [if_pos h3, if_pos h3]
      · rw [if_neg h3, if_neg h3]
        dsimp only
        rw [show (writeU64 (setB dst off 255) num (off + 1)).1 = off + 1 + 8 from
          write64_off _ _ _ _]

/-- The `tmp` byte group list of `writeVarint2` has exactly the length that
`sizeVarint2` computes, whatever the group index `len` is. -/
theorem v2tmp_length (num : Int) (len : Nat) :
    (v2tmp num len).length = sizeVarint2 num := by
  rw [v2tmp, sizeVarint2]
  by_cases h : num ≤ 127
  · rw [if_pos h, if_pos h]
    rfl
  · rw [if_neg h, if_neg h]
    simp only [List.length_cons]
    rw [v2tmp_length ((num - num % 128) / 128 - 1) (len + 1)]
    omega
termination_by num.toNat
decreasing_by
  simp_wf
  have h2 : num - num % 128 = 128 * (num / 128) := by omega
  have h3 : (num - num % 128) / 128 = num / 128 := by
    rw [h2]; exact Int.mul_ediv_cancel_left _ (by norm_num)
  rw [h3]
  omega

set_option maxRecDepth 4000 in
/-- Per-operation size fidelity: whenever `StaticWriter` runs one write
operation without throwing, its cursor lands exactly where `SizeWriter`'s
running count says it will. -/
theorem runStatic_offset (hash : List Nat → List Nat) (op : WOp) (s s' : SWState)
    (h : runStatic hash op s = .ok s') : s'.offset = runSize op s.offset := by
  cases op with
  | u8 v => simp only [runStatic] at h; injection h with h'; subst h'; rfl
  | u16 v => simp only [runStatic] at h; injection h with h'; subst h'; rfl
  | u16be v => simp only [runStatic] at h; injection h with h'; subst h'; rfl
  | u32 v => simp only [runStatic] at h; injection h with h'; subst h'; rfl
  | u32be v => simp only [runStatic] at h; injection h with h'; subst h'; rfl
  | u64 v =>
    simp only [runStatic] at h; injection h with h'; subst h'
    show (writeU64 s.data v s.offset).1 = s.offset + 8
    exact write64_off _ _ _ _
  | u64be v =>
    simp only [runStatic] at h; injection h with h'; subst h'
    show (writeU64BE s.data v s.offset).1 = s.offset + 8
    exact write64_off _ _ _ _
  | i8 v => simp only [runStatic] at h; injection h with h'; subst h'; rfl
  | i16 v => simp only [runStatic] at h; injection h with h'; subst h'; rfl
  | i16be v => simp only [runStatic] at h; injection h with h'; subst h'; rfl
  | i32 v => simp only [runStatic] at h; injection h with h'; subst h'; rfl
  | i32be v => simp only [runStatic] at h; injection h with h'; subst h'; rfl
  | i64 v =>
    simp only [runStatic] at h; injection h with h'; subst h'
    show (writeU64 s.data v s.offset).1 = s.offset + 8
    exact write64_off _ _ _ _
  | i64be v =>
    simp only [runStatic] at h; injection h with h'; subst h'
    show (writeU64BE s.data v s.offset).1 = s.offset + 8
    exact write64_off _ _ _ _
  | f32 bits => simp only [runStatic] at h; injection h with h'; subst h'; rfl
  | f32be bits => simp only [runStatic] at h; injection h with h'; subst h'; rfl
  | f64 bits => simp only [runStatic] at h; injection h with h'; subst h'; rfl
  | f64be bits => simp only [runStatic] at h; injection h with h'; subst h'; rfl
  | varint v =>
    simp only [runStatic] at h; injection h with h'; subst h'
    show (writeVarint s.data v s.offset).1 = s.offset + sizeVarint v
    exact writeVarint_off _ _ _
  | varint2 v =>
    simp only [runStatic] at h
    cases hw : writeVarint2 s.data v s.offset with
    | error e => rw [hw] at h; exact absurd h (by simp)
    | ok r =>
      rw [hw] at h
      injection h with h'
      subst h'
      rw [writeVarint2] at hw
      by_cases hb : s.offset + (v2tmp v 0).length ≤ s.data.length
      · rw [if_pos hb] at hw
        injection hw with hw'
        rw [← hw']
        show s.offset + (v2tmp v 0).length = s.offset + sizeVarint2 v
        rw [v2tmp_length v 0]
      · rw [if_neg hb] at hw; exact absurd hw (by simp)
  | bytes bs =>
    simp only [runStatic] at h
    by_cases h0 : bs.length = 0
    · rw [if_pos h0] at h; injection h with h'; subst h'
      show s.offset = s.offset + bs.length
      omega
    · rw [if_neg h0] at h; injection h with h'; subst h'; rfl
  | varBytes bs =>
    simp only [runStatic] at h
    by_cases h0 : bs.length = 0
    · rw [if_pos h0] at h; injection h with h'; subst h'
      show (writeVarint s.data (bs.length : Int) s.offset).1 =
        s.offset + sizeVarint (bs.length : Int) + bs.length
      rw [writeVarint_off]
      omega
    · rw [if_neg h0] at h; injection h with h'; subst h'
      show (writeVarint s.data (bs.length : Int) s.offset).1 + bs.length =
        s.offset + sizeVarint (bs.length : Int) + bs.length
      rw [writeVarint_off]
  | strW chars enc =>
    simp only [runStatic] at h
    by_cases h0 : chars = 0
    · rw [if_pos h0] at h; injection h with h'; subst h'
      show s.offset = if chars = 0 then s.offset else s.offset + enc.length
      rw [if_pos h0]
    · rw [if_neg h0] at h; injection h with h'; subst h'
      show s.offset + enc.length =
        if chars = 0 then s.offset else s.offset + enc.length
      rw [if_neg h0]
  | varStrW chars enc =>
    simp only [runStatic] at h
    by_cases h0 : chars = 0
    · rw [if_pos h0] at h
      injection h with h'; subst h'
      show (writeVarint s.data 0 s.offset).1 =
        if chars = 0 then s.offset + 1
        else s.offset + sizeVarint (enc.length : Int) + enc.length
      rw [if_pos h0, writeVarint_off]
      norm_num [sizeVarint]
    · rw [if_neg h0] at h
      injection h with h'; subst h'
      show (writeVarint s.data (enc.length : Int) s.offset).1 + enc.length =
        if chars = 0 then s.offset + 1
        else s.offset + sizeVarint (enc.length : Int) + enc.length
      rw [if_neg h0, writeVarint_off]
  | nullStrW chars enc =>
    simp only [runStatic] at h
    injection h with h'
    subst h'
    by_cases h0 : chars = 0
    · show ((if chars = 0 then s
          else ⟨writeListB s.data s.offset enc, s.offset + enc.length⟩ : SWState)).offset + 1 =
        (if chars = 0 then s.offset else s.offset + enc.length) + 1
      rw [if_pos h0, if_pos h0]
    · show ((if chars = 0 then s
          else ⟨writeListB s.data s.offset enc, s.offset + enc.length⟩ : SWState)).offset + 1 =
        (if chars = 0 then s.offset else s.offset + enc.length) + 1
      rw [if_neg h0, if_neg h0]
  | hashB bs =>
    simp only [runStatic] at h
    by_cases h32 : bs.length = 32
    · rw [if_pos h32] at h; injection h with h'; subst h'
      show s.offset + bs.length = s.offset + 32
      omega
    · rw [if_neg h32] at h; exact absurd h (by simp)
  | hashS chars decoded =>
    simp only [runStatic] at h
    by_cases h64 : chars = 64
    · rw [if_pos h64] at h; injection h with h'; subst h'; rfl
    · rw [if_neg h64] at h; exact absurd h (by simp)
  | fill v size =>
    simp only [runStatic] at h
    by_cases h0 : size = 0
    · rw [if_pos h0] at h; injection h with h'; subst h'
      show s.offset = s.offset + size
      omega
    · rw [if_neg h0] at h; injection h with h'; subst h'; rfl
  | copyW bs start stop =>
    simp only [runStatic] at h
    by_cases h0 : stop - start = 0
    · rw [if_pos h0] at h; injection h with h'; subst h'
      show s.offset = s.offset + (stop - start)
      omega
    · rw [if_neg h0] at h; injection h with h'; subst h'; rfl
  | chksum =>
    simp only [runStatic] at h; injection h with h'; subst h'; rfl

/-- List version of `runStatic_offset`: a non-throwing `StaticWriter` run of
a whole operation sequence ends with its cursor at the `SizeWriter` total. -/
theorem runStaticList_offset (hash : List Nat → List Nat) (ops : List WOp) :
    ∀ s s' : SWState, runStaticList hash ops s = .ok s' →
      s'.offset = runSizeList ops s.offset := by
  induction ops with
  | nil =>
    intro s s' h
    rw [runStaticList] at h
    injection h with h'
    subst h'
    rfl
  | cons op rest ih =>
    intro s s' h
    rw [runStaticList] at h
    cases h1 : runStatic hash op s with
    | error e => rw [h1] at h; exact absurd h (by simp)
    | ok s1 =>
      rw [h1] at h
      simp only [exceptBindOk] at h
      rw [ih s1 s' h, runSizeList, runSizeList, List.foldl_cons,
        runStatic_offset hash op s s1 h1]
/-- Claim C10 (confirmed): `SizeWriter` is a faithful size oracle for
`StaticWriter`.  For every finite sequence of write operations supported by
both writers, if a fresh `StaticWriter` (cursor 0, any backing buffer and
checksum hash) runs the whole sequence without throwing — the only throwing
paths are `writeVarint2`'s capacity check and the `writeHash` argument
assertions, so a sufficiently large buffer and valid arguments always get
here — then its final cursor equals the final running count of a fresh
`SizeWriter` after the same sequence with the same arguments. -/
theorem C10_sizewriter_is_size_oracle (hash : List Nat → List Nat)
    (ops : List WOp) (dst : List Nat) (s' : SWState)
    (h : runStaticList hash ops ⟨dst, 0⟩ = .ok s') :
    s'.offset = runSizeList ops 0 :=
  runStaticList_offset hash ops ⟨dst, 0⟩ s' h

/-- Witness for claim C10: the sequence `writeU8 7; writeVarint 300` on a
four-byte `StaticWriter` buffer ends at offset 4, the `SizeWriter` total. -/
theorem C10_sizewriter_is_size_oracle_witness :
    SWState.offset ⟨[7, 253, 44, 1], 4⟩ =
      runSizeList [WOp.u8 7, WOp.varint 300] 0 :=
  C10_sizewriter_is_size_oracle (fun _ => []) [WOp.u8 7, WOp.varint 300]
    [0, 0, 0, 0] ⟨[7, 253, 44, 1], 4⟩ (by decide)

end Bufio
